import Mathlib

/-!
Verification of the arbot market-data and opportunity-detection core.

Prices, quantities and fees are modelled as exact rationals (`ℚ`); the
source carries decimal strings on the wire and parses them with
`parseFloat` at comparison time.  Timestamps are modelled as integers
(UTC milliseconds).
-/

namespace Arbot

/-- One price level of an order book (source: `OrderBookEntry` in
`packages/shared`, `price` and `quantity` decimal strings). -/
structure OrderBookEntry where
  price : ℚ
  quantity : ℚ
deriving DecidableEq, Repr

/-- A venue order book (source: `OrderBook` in `packages/shared`). -/
structure OrderBook where
  symbol : String
  exchange : String
  bids : List OrderBookEntry
  asks : List OrderBookEntry
  timestamp : ℤ
  lastUpdateId : Option ℤ := none
deriving DecidableEq, Repr

/-- Detector tunables (source: `OpportunityConfig` in the
`OpportunityDetector` module). -/
structure OpportunityConfig where
  minProfitPercent : ℚ
  slippageBuffer : ℚ
  maxSpreadAge : ℤ
deriving DecidableEq, Repr

/-- The detector's hard-coded construction-time configuration
(source: `OpportunityDetector.config` initializer). -/
def detectorDefaultConfig : OpportunityConfig :=
  { minProfitPercent := -0.5
    slippageBuffer := 0.0
    maxSpreadAge := 5000 }

/-- The detector's default USD trade amount (source: field
`tradeAmount = 1000`). -/
def defaultTradeAmount : ℚ := 1000

/-- Throttle interval of `updateOrderBook` in milliseconds (source:
literal `1000` in `now - this.lastOpportunityCheck > 1000`). -/
def checkIntervalMs : ℤ := 1000

/-- Row-retention bound of the opportunity sink (source: literal
`1000` in `cleanupOldOpportunities`). -/
def retentionCount : ℕ := 1000

/-- Taker fee of a venue, as a fraction (source: `OpportunityDetector.fees`
together with the falsy-or `0.001` fallback used at the call sites; no
configured taker fee is zero, so the falsy fallback never masks one). -/
def takerFee (exchange : String) : ℚ :=
  if exchange = "binance" then 0.001
  else if exchange = "coinbase" then 0.006
  else if exchange = "kraken" then 0.01
  else if exchange = "kucoin" then 0.0008
  else if exchange = "bybit" then 0.001
  else if exchange = "gemini" then 0.004
  else 0.001

/-- An emitted arbitrage opportunity (source: `ArbitrageOpportunity` in
`packages/shared`; the id and wall-clock timestamp are omitted). -/
structure ArbitrageOpportunity where
  symbol : String
  buyExchange : String
  sellExchange : String
  buyPrice : ℚ
  sellPrice : ℚ
  spread : ℚ
  spreadPercent : ℚ
  estimatedProfit : ℚ
  buyFee : ℚ
  sellFee : ℚ
  totalFee : ℚ
deriving DecidableEq, Repr

/-- Net profit percentage of one two-leg direction (source: the body of
`OpportunityDetector.calculateOpportunity`, lines computing
`assetQuantity`, `buyValue`, `sellValue`, `buyFee`, `sellFee`,
`grossProfit`, `netProfit`, `profitPercent`). -/
def profitPercent (tradeAmount : ℚ) (buyExchange sellExchange : String)
    (buyPrice sellPrice : ℚ) : ℚ :=
  let assetQuantity := tradeAmount / buyPrice
  let buyValue := tradeAmount
  let sellValue := sellPrice * assetQuantity
  let buyFee := buyValue * takerFee buyExchange
  let sellFee := sellValue * takerFee sellExchange
  let totalFees := buyFee + sellFee
  let grossProfit := sellValue - buyValue
  let netProfit := grossProfit - totalFees
  (netProfit / buyValue) * 100

/-- One direction of `OpportunityDetector.calculateOpportunity`:
best ask of the buy book against best bid of the sell book; returns
`none` when a side is empty or the profit is below
`minProfitPercent`. -/
def calculateOpportunity (config : OpportunityConfig) (tradeAmount : ℚ)
    (buyOrderBook sellOrderBook : OrderBook) (symbol : String) :
    Option ArbitrageOpportunity :=
  match sellOrderBook.bids.head?, buyOrderBook.asks.head? with
  | some bestBid, some bestAsk =>
    let buyPrice := bestAsk.price
    let sellPrice := bestBid.price
    let assetQuantity := tradeAmount / buyPrice
    let buyValue := tradeAmount
    let sellValue := sellPrice * assetQuantity
    let buyFee := buyValue * takerFee buyOrderBook.exchange
    let sellFee := sellValue * takerFee sellOrderBook.exchange
    let totalFees := buyFee + sellFee
    let grossProfit := sellValue - buyValue
    let netProfit := grossProfit - totalFees
    let pct := (netProfit / buyValue) * 100
    if pct < config.minProfitPercent then none
    else some
      { symbol := symbol
        buyExchange := buyOrderBook.exchange
        sellExchange := sellOrderBook.exchange
        buyPrice := buyPrice
        sellPrice := sellPrice
        spread := grossProfit
        spreadPercent := pct
        estimatedProfit := netProfit
        buyFee := buyFee
        sellFee := sellFee
        totalFee := totalFees }
  | _, _ => none

/-- Threshold test applied to a computed opportunity before it is
handled (source: `OpportunityDetector.isProfitableOpportunity`). -/
def isProfitableOpportunity (config : OpportunityConfig)
    (opportunity : ArbitrageOpportunity) : Bool :=
  opportunity.spreadPercent ≥ config.minProfitPercent + config.slippageBuffer

/-- Whether the detector hands an opportunity for the direction
buy on `buyOrderBook` / sell on `sellOrderBook` to `handleOpportunity`
(source: the body of `detectOpportunities`: an opportunity is handled
exactly when `calculateOpportunity` returns one and
`isProfitableOpportunity` accepts it). -/
def emitsDirection (config : OpportunityConfig) (tradeAmount : ℚ)
    (buyOrderBook sellOrderBook : OrderBook) (symbol : String) : Bool :=
  match calculateOpportunity config tradeAmount buyOrderBook sellOrderBook symbol with
  | some opportunity => isProfitableOpportunity config opportunity
  | none => false

/-- Configuration exhibiting the gap between the two threshold tests:
a negative slippage buffer is accepted by `updateConfig`. -/
def negativeSlippageConfig : OpportunityConfig :=
  { minProfitPercent := 0
    slippageBuffer := -1
    maxSpreadAge := 5000 }

/-- Buy-side book for the C1 counterexample (unknown venue, fallback
taker fee). -/
def narrowSpreadBuyBook : OrderBook :=
  { symbol := "XUSD"
    exchange := "alpha"
    bids := []
    asks := [{ price := 100, quantity := 1 }]
    timestamp := 0 }

/-- Sell-side book for the C1 counterexample. -/
def narrowSpreadSellBook : OrderBook :=
  { symbol := "XUSD"
    exchange := "beta"
    bids := [{ price := 100, quantity := 1 }]
    asks := []
    timestamp := 0 }

/-- Witness for C1 (amended): the spec's scenario 1 numbers
(binance ask 10000, coinbase bid 10200, 1000 USD) do get emitted under
the construction-time configuration. -/
def scenarioBinanceBook : OrderBook :=
  { symbol := "BTCUSDT"
    exchange := "binance"
    bids := []
    asks := [{ price := 10000, quantity := 1 }]
    timestamp := 0 }

/-- Coinbase sell-side book of the spec's scenario 1. -/
def scenarioCoinbaseBook : OrderBook :=
  { symbol := "BTC-USD"
    exchange := "coinbase"
    bids := [{ price := 10200, quantity := 1 }]
    asks := []
    timestamp := 0 }

/-! ### Symbol registry (`ExchangeSymbolMapper`)

The JavaScript string primitives are modelled on character lists so that
every operation is kernel-computable. -/

/-- JS `String.prototype.endsWith`. -/
def endsWithL (s suffixChars : List Char) : Bool :=
  suffixChars.isSuffixOf s

/-- JS `symbol.slice(0, -n)`: drop the last `n` characters. -/
def dropRightL (s : List Char) (n : ℕ) : List Char :=
  s.take (s.length - n)

/-- JS `String.prototype.toUpperCase` (ASCII suffices here). -/
def toUpperL (s : List Char) : List Char :=
  s.map Char.toUpper

/-- JS `String.prototype.toLowerCase` (ASCII suffices here). -/
def toLowerL (s : List Char) : List Char :=
  s.map Char.toLower

/-- JS `String.prototype.split` on a one-character separator (every
separator in the registry is one character). -/
def splitOnCharL (sep : Char) (s : List Char) : List (List Char) :=
  s.foldr
    (fun c acc =>
      if c = sep then [] :: acc
      else
        match acc with
        | h :: t => (c :: h) :: t
        | [] => [[c]])
    [[]]

/-- Per-venue symbol recipe (source: `ExchangeSymbolFormat`). -/
structure ExchangeSymbolFormat where
  exchangeId : String
  nativeFormat : String
  separator : String
  baseFirst : Bool
  examples : List String
  specialMappings : List (String × String) := []
deriving DecidableEq, Repr

/-- The registry contents (source: `initializeExchangeFormats`, with the
example lists copied verbatim). -/
def exchangeFormats : List (String × ExchangeSymbolFormat) :=
  [("binance",
    { exchangeId := "binance", nativeFormat := "BASEQOUTE", separator := ""
      baseFirst := true
      examples :=
        ["BTCUSDT", "ETHUSDT", "BNBUSDT", "NEOUSDT", "LTCUSDT",
         "QTUMUSDT", "ADAUSDT", "XRPUSDT", "EOSUSDT", "IOTAUSDT",
         "XLMUSDT", "ONTUSDT", "TRXUSDT", "ETCUSDT", "ICXUSDT",
         "LINKUSDT", "UNIUSDT", "AAVEUSDT", "DOTUSDT", "MATICUSDT",
         "AVAXUSDT", "SOLUSDT", "ATOMUSDT", "ALGOUSDT", "XTZUSDT",
         "COMPUSDT", "MKRUSDT", "YFIUSDT", "SUSHIUSDT", "CRVUSDT"] }),
   ("coinbase",
    { exchangeId := "coinbase", nativeFormat := "BASE-QUOTE", separator := "-"
      baseFirst := true
      examples :=
        ["BTC-USD", "ETH-USD", "LTC-USD", "ADA-USD", "XRP-USD",
         "AAVE-USD", "LINK-USD", "UNI-USD", "DOT-USD", "MATIC-USD",
         "AVAX-USD", "SOL-USD", "ATOM-USD", "ALGO-USD", "XTZ-USD",
         "COMP-USD", "MKR-USD", "YFI-USD", "SUSHI-USD", "CRV-USD"] }),
   ("kraken",
    { exchangeId := "kraken", nativeFormat := "BASE/QUOTE", separator := "/"
      baseFirst := true
      examples :=
        ["XBT/USD", "ETH/USD", "LTC/USD", "XRP/USD", "ADA/USD",
         "DOT/USD", "LINK/USD", "UNI/USD", "AAVE/USD", "MATIC/USD",
         "AVAX/USD", "SOL/USD", "ATOM/USD", "ALGO/USD", "XTZ/USD",
         "COMP/USD", "MKR/USD", "YFI/USD", "SUSHI/USD", "CRV/USD"]
      specialMappings := [("BTC", "XBT"), ("XBT", "BTC")] }),
   ("bybit",
    { exchangeId := "bybit", nativeFormat := "BASEQOUTE", separator := ""
      baseFirst := true
      examples :=
        ["BTCUSDT", "ETHUSDT", "XRPUSDT", "DOTUSDT", "XLMUSDT",
         "LTCUSDT", "ADAUSDT", "LINKUSDT", "UNIUSDT", "AAVEUSDT",
         "AVAXUSDT", "SOLUSDT", "ATOMUSDT", "ALGOUSDT", "XTZUSDT",
         "COMPUSDT", "MKRUSDT", "YFIUSDT", "SUSHIUSDT", "CRVUSDT"] }),
   ("kucoin",
    { exchangeId := "kucoin", nativeFormat := "BASE-QUOTE", separator := "-"
      baseFirst := true
      examples :=
        ["BTC-USDT", "ETH-USDT", "BNB-USDT", "NEO-USDT", "LTC-USDT",
         "QTUM-USDT", "ADA-USDT", "XRP-USDT", "EOS-USDT", "IOTA-USDT",
         "XLM-USDT", "ONT-USDT", "TRX-USDT", "XTZ-USDT", "ALGO-USDT",
         "LINK-USDT", "UNI-USDT", "AAVE-USDT", "DOT-USDT", "MATIC-USDT",
         "AVAX-USDT", "SOL-USDT", "ATOM-USDT", "COMP-USDT", "MKR-USDT"] }),
   ("gemini",
    { exchangeId := "gemini", nativeFormat := "baseqoute", separator := ""
      baseFirst := true
      examples :=
        ["btcusd", "ethusd", "ltcusd", "linkusd",
         "uniusd", "aaveusd", "maticusd", "dotusd",
         "avaxusd", "solusd", "atomusd", "algousd",
         "xtzusd", "compusd", "mkrusd", "yfiusd"] })]

/-- Map lookup `this.exchangeFormats.get(exchangeId)`. -/
def getExchangeFormat (exchangeId : String) : Option ExchangeSymbolFormat :=
  exchangeFormats.lookup exchangeId

/-- JS `format.specialMappings.get(base) || base`. -/
def applyMapping (mappings : List (String × String)) (base : String) : String :=
  (mappings.lookup base).getD base

/-- Shared right-to-left quote-splitting loop of `parseNormalizedSymbol`
and the no-separator branch of `parseExchangeSymbol`: the first listed
quote asset that is a proper suffix wins. -/
def findQuoteSplit (symbol : String) : List String → Option (String × String)
  | [] => none
  | q :: rest =>
    if endsWithL symbol.data q.data ∧ dropRightL symbol.data q.data.length ≠ [] then
      some ((⟨dropRightL symbol.data q.data.length⟩ : String), q)
    else findQuoteSplit symbol rest

/-- Source: `ExchangeSymbolMapper.parseNormalizedSymbol`. -/
def parseNormalizedSymbol (symbol : String) : Option (String × String) :=
  findQuoteSplit symbol ["USDT", "USDC", "USD", "EUR", "BTC", "ETH", "BNB"]

/-- Source: `ExchangeSymbolMapper.parseExchangeSymbol`. -/
def parseExchangeSymbol (symbol : String) (format : ExchangeSymbolFormat) :
    Option (String × String) :=
  match format.separator.data with
  | [] =>
    findQuoteSplit (⟨toUpperL symbol.data⟩ : String)
      ["USDT", "USDC", "USD", "EUR", "BTC", "ETH"]
  | sep :: _ =>
    match splitOnCharL sep symbol.data with
    | [p0, p1] =>
      if p0 ≠ [] ∧ p1 ≠ [] then
        if format.baseFirst then some ((⟨p0⟩ : String), (⟨p1⟩ : String))
        else some ((⟨p1⟩ : String), (⟨p0⟩ : String))
      else none
    | _ => none

/-- Source: `ExchangeSymbolMapper.normalizeQuoteAsset`. -/
def normalizeQuoteAsset (quote : String) : String :=
  let normalized : String := ⟨toUpperL quote.data⟩
  if normalized = "USDT" ∨ normalized = "USDC" ∨ normalized = "BUSD" ∨
      normalized = "DAI" then "USD"
  else normalized

/-- Source: `ExchangeSymbolMapper.toExchangeSymbol` (canonical to
native). -/
def toExchangeSymbol (normalizedSymbol exchangeId : String) : Option String :=
  match getExchangeFormat exchangeId with
  | none => none
  | some format =>
    match parseNormalizedSymbol normalizedSymbol with
    | none => none
    | some (b, q) =>
      let base := applyMapping format.specialMappings b
      let quote :=
        if q = "USD" ∧
            (exchangeId = "binance" ∨ exchangeId = "kucoin" ∨ exchangeId = "bybit")
        then "USDT" else q
      let cased : String × String :=
        if (⟨toLowerL format.nativeFormat.data⟩ : String) = format.nativeFormat then
          ((⟨toLowerL base.data⟩ : String), (⟨toLowerL quote.data⟩ : String))
        else ((⟨toUpperL base.data⟩ : String), (⟨toUpperL quote.data⟩ : String))
      some (if format.baseFirst then cased.1 ++ format.separator ++ cased.2
            else cased.2 ++ format.separator ++ cased.1)

/-- Source: `ExchangeSymbolMapper.fromExchangeSymbol` (native to
canonical). -/
def fromExchangeSymbol (exchangeSymbol exchangeId : String) : Option String :=
  match getExchangeFormat exchangeId with
  | none => none
  | some format =>
    match parseExchangeSymbol exchangeSymbol format with
    | none => none
    | some (b, q) =>
      let base := applyMapping format.specialMappings b
      let quote := normalizeQuoteAsset q
      some ((⟨toUpperL base.data⟩ : String) ++ (⟨toUpperL quote.data⟩ : String))

/-- Source: `ExchangeSymbolMapper.getSupportedSymbols`. -/
def getSupportedSymbols (exchangeId : String) : List String :=
  match getExchangeFormat exchangeId with
  | some format => format.examples
  | none => []

/-- The six venue ids known to the registry. -/
def mapperVenueIds : List String :=
  ["binance", "coinbase", "kraken", "bybit", "kucoin", "gemini"]

/-- Round-trip check for one registered native symbol `e` of venue
`exchangeId`: canonicalize, re-derive the native form, canonicalize
again, and compare. -/
def exampleRoundTrip (exchangeId e : String) : Bool :=
  match fromExchangeSymbol e exchangeId with
  | some s =>
    decide (((toExchangeSymbol s exchangeId).bind
      (fun e2 => fromExchangeSymbol e2 exchangeId)) = some s)
  | none => false

/-- Leftmost, non-overlapping global rewrite of `USDT` to `USD`
(JS `replace(/USDT/g, 'USD')`). -/
def replaceUSDTtoUSD : List Char → List Char
  | 'U' :: 'S' :: 'D' :: 'T' :: rest => 'U' :: 'S' :: 'D' :: replaceUSDTtoUSD rest
  | c :: rest => c :: replaceUSDTtoUSD rest
  | [] => []

/-- Source: `OpportunityDetector.normalizeSymbol`: every dash is
removed, then every `USDT` occurrence becomes `USD` (two chained global
JS regex replaces). -/
def normalizeSymbol (symbol : String) : String :=
  ⟨replaceUSDTtoUSD (symbol.data.filter (fun c => c ≠ '-'))⟩

/-! ### Binance order-book reconstruction (`BinanceWebSocketClient`) -/

/-- JS `Map.set` on the price map: replace in place when the price is
already a key, else append at the end. -/
def setPrice (priceMap : List (ℚ × ℚ)) (price quantity : ℚ) : List (ℚ × ℚ) :=
  if priceMap.any (fun pq => pq.1 == price) then
    priceMap.map (fun pq => if pq.1 = price then (price, quantity) else pq)
  else priceMap ++ [(price, quantity)]

/-- JS `Map.delete` on the price map. -/
def deletePrice (priceMap : List (ℚ × ℚ)) (price : ℚ) : List (ℚ × ℚ) :=
  priceMap.filter (fun pq => pq.1 != price)

/-- First phase of `updateOrderBookSide`: load the existing entries
into the price map (later duplicates of a price overwrite earlier
ones, as `Map.set` does). -/
def buildPriceMap (existing : List OrderBookEntry) : List (ℚ × ℚ) :=
  existing.foldl (fun m e => setPrice m e.price e.quantity) []

/-- Second phase of `updateOrderBookSide`: one incoming
`(price, quantity)`; zero quantity removes the level, anything else
upserts it. -/
def applyDepthEntry (m : List (ℚ × ℚ)) (u : ℚ × ℚ) : List (ℚ × ℚ) :=
  if u.2 = 0 then deletePrice m u.1 else setPrice m u.1 u.2

/-- Comparator for bids: highest price first. -/
def bidOrder (a b : ℚ × ℚ) : Prop := b.1 ≤ a.1

/-- Comparator for asks: lowest price first. -/
def askOrder (a b : ℚ × ℚ) : Prop := a.1 ≤ b.1

instance : DecidableRel bidOrder :=
  fun a b => (inferInstance : Decidable (b.1 ≤ a.1))

instance : DecidableRel askOrder :=
  fun a b => (inferInstance : Decidable (a.1 ≤ b.1))

instance : IsTotal (ℚ × ℚ) bidOrder :=
  ⟨fun a b => le_total b.1 a.1⟩

instance : IsTrans (ℚ × ℚ) bidOrder :=
  ⟨fun _ _ _ hab hbc => le_trans hbc hab⟩

instance : IsTotal (ℚ × ℚ) askOrder :=
  ⟨fun a b => le_total a.1 b.1⟩

instance : IsTrans (ℚ × ℚ) askOrder :=
  ⟨fun _ _ _ hab hbc => le_trans hab hbc⟩

/-- The `'bids' | 'asks'` tag of `updateOrderBookSide`. -/
inductive BookSide where
  | bids
  | asks
deriving DecidableEq, Repr

/-- Source: `BinanceWebSocketClient.updateOrderBookSide` — rebuild the
price map from the existing side, apply the updates, convert back and
sort (bids descending, asks ascending).  No truncation occurs. -/
def updateOrderBookSide (existing : List OrderBookEntry)
    (updates : List (ℚ × ℚ)) (side : BookSide) : List OrderBookEntry :=
  let applied := updates.foldl applyDepthEntry (buildPriceMap existing)
  let sorted :=
    match side with
    | .bids => applied.insertionSort bidOrder
    | .asks => applied.insertionSort askOrder
  sorted.map (fun pq => { price := pq.1, quantity := pq.2 })

/-- A Binance `depthUpdate` frame (source: `BinanceDepthUpdate`). -/
structure BinanceDepthUpdate where
  s : String
  E : ℤ
  U : ℤ
  u : ℤ
  b : List (ℚ × ℚ)
  a : List (ℚ × ℚ)
deriving DecidableEq, Repr

/-- The state mutation of `handleDepthUpdate` once the sequence check
passes. -/
def applyBinanceDepthUpdate (book : OrderBook) (update : BinanceDepthUpdate) :
    OrderBook :=
  { book with
    bids := updateOrderBookSide book.bids update.b .bids
    asks := updateOrderBookSide book.asks update.a .asks
    timestamp := update.E
    lastUpdateId := some update.u }

/-- The stale-sequence test of `handleDepthUpdate`: the JS truthiness
check `existingOrderBook.lastUpdateId && update.U <= lastUpdateId` is
false for an absent id and for the number `0`. -/
def staleSeq (lastUpdateId : Option ℤ) (firstId : ℤ) : Prop :=
  match lastUpdateId with
  | some lastId => lastId ≠ 0 ∧ firstId ≤ lastId
  | none => False

instance (o : Option ℤ) (n : ℤ) : Decidable (staleSeq o n) :=
  match o with
  | some lastId => inferInstanceAs (Decidable (lastId ≠ 0 ∧ n ≤ lastId))
  | none => inferInstanceAs (Decidable False)

/-- Source: `BinanceWebSocketClient.handleDepthUpdate` for a known
symbol; `none` means the update was skipped (stale sequence id) and no
book was emitted. -/
def handleDepthUpdate (existingOrderBook : OrderBook)
    (update : BinanceDepthUpdate) : Option OrderBook :=
  if staleSeq existingOrderBook.lastUpdateId update.U then none
  else some (applyBinanceDepthUpdate existingOrderBook update)

/-- One step of the update stream: apply a frame, collecting the
emitted book if any. -/
def binanceStep (st : OrderBook × List OrderBook) (u : BinanceDepthUpdate) :
    OrderBook × List OrderBook :=
  match handleDepthUpdate st.1 u with
  | some updated => (updated, st.2 ++ [updated])
  | none => st

/-- The books emitted while folding a stream of depth updates into a
primed book. -/
def binanceEmittedBooks (book : OrderBook) (updates : List BinanceDepthUpdate) :
    List OrderBook :=
  (updates.foldl binanceStep (book, ([] : List OrderBook))).2

/-- Bids strictly descending by price. -/
def strictlyDescendingPrices (entries : List OrderBookEntry) : Prop :=
  entries.Pairwise (fun x y => y.price < x.price)

/-- Asks strictly ascending by price. -/
def strictlyAscendingPrices (entries : List OrderBookEntry) : Prop :=
  entries.Pairwise (fun x y => x.price < y.price)

/-- No level with zero quantity. -/
def zeroFree (entries : List OrderBookEntry) : Prop :=
  ∀ e ∈ entries, e.quantity ≠ 0

instance (entries : List OrderBookEntry) : Decidable (zeroFree entries) :=
  inferInstanceAs (Decidable (∀ e ∈ entries, e.quantity ≠ 0))

/-- The REST priming depth limit for Binance (source: the
`depth?symbol=...&limit=50` snapshot request). -/
def binanceSnapshotDepthLimit : ℕ := 50

/-- Price keys of a price map. -/
def keysOf (m : List (ℚ × ℚ)) : List ℚ := m.map Prod.fst

/-- All stored quantities are non-zero. -/
def valsNonzero (m : List (ℚ × ℚ)) : Prop := ∀ pq ∈ m, pq.2 ≠ 0

/-- The four side invariants an emitted book satisfies. -/
def emittedBookOk (b : OrderBook) : Prop :=
  strictlyDescendingPrices b.bids ∧ strictlyAscendingPrices b.asks ∧
  zeroFree b.bids ∧ zeroFree b.asks

/-- A 50-level primed bid side (prices 100 down to 51), matching the
REST snapshot depth limit. -/
def fiftyLevelBids : List OrderBookEntry :=
  (List.range 50).map (fun i => { price := mkRat (100 - (i : ℤ)) 1, quantity := 1 })

/-- A primed Binance book whose bid side is at the 50-level snapshot
limit. -/
def fiftyLevelBook : OrderBook :=
  { symbol := "BTCUSDT"
    exchange := "binance"
    bids := fiftyLevelBids
    asks := [{ price := mkRat 200 1, quantity := 1 }]
    timestamp := 0
    lastUpdateId := some 4 }

/-- An in-sequence depth frame inserting one additional bid level. -/
def extraBidUpdate : BinanceDepthUpdate :=
  { s := "BTCUSDT", E := 1, U := 5, u := 6
    b := [(mkRat 101 1, 1)], a := [] }

/-- A minimal primed book for the C3 witness. -/
def smallPrimedBook : OrderBook :=
  { symbol := "BTCUSDT"
    exchange := "binance"
    bids := [{ price := 2, quantity := 1 }]
    asks := [{ price := 3, quantity := 1 }]
    timestamp := 0
    lastUpdateId := none }

/-- A depth frame adding one bid below the best bid. -/
def smallDepthUpdate : BinanceDepthUpdate :=
  { s := "BTCUSDT", E := 5, U := 1, u := 2, b := [(1, 4)], a := [] }

/-- The book the small update emits. -/
def smallEmittedBook : OrderBook :=
  { symbol := "BTCUSDT"
    exchange := "binance"
    bids := [{ price := 2, quantity := 1 }, { price := 1, quantity := 4 }]
    asks := [{ price := 3, quantity := 1 }]
    timestamp := 5
    lastUpdateId := some 2 }

/-! ### Bybit order-book reconstruction (`BybitWebSocketClient`) -/

/-- Source: `BybitWebSocketClient.updateOrderBookSide` — drop every
existing entry at the incoming price, then push the new level at the
end only when the parsed quantity is strictly positive (a zero or
negative quantity is a pure removal; unlike Binance, nothing is
upserted for it). -/
def bybitUpdateOrderBookSide (existing : List OrderBookEntry)
    (price quantity : ℚ) : List OrderBookEntry :=
  (existing.filter (fun entry => entry.price != price)) ++
    (if 0 < quantity then [{ price := price, quantity := quantity }] else [])

/-- One Bybit order-book frame for a subscribed symbol: a `snapshot`
replaces both sides wholesale with the payload, a delta folds the
per-level upserts (source: the `update.type === 'snapshot'` branch of
`BybitWebSocketClient.handleOrderBookUpdate`); `now` is the wall-clock
value stamped on the rebuilt book. -/
structure BybitOrderBookMsg where
  isSnapshot : Bool
  b : List (ℚ × ℚ)
  a : List (ℚ × ℚ)
  now : ℤ
deriving DecidableEq, Repr

/-- Bybit bid comparator on entries: highest price first. -/
def bidOrderE (a b : OrderBookEntry) : Prop := b.price ≤ a.price

/-- Bybit ask comparator on entries: lowest price first. -/
def askOrderE (a b : OrderBookEntry) : Prop := a.price ≤ b.price

instance : DecidableRel bidOrderE :=
  fun a b => (inferInstance : Decidable (b.price ≤ a.price))

instance : DecidableRel askOrderE :=
  fun a b => (inferInstance : Decidable (a.price ≤ b.price))

instance : IsTotal OrderBookEntry bidOrderE :=
  ⟨fun a b => le_total b.price a.price⟩

instance : IsTrans OrderBookEntry bidOrderE :=
  ⟨fun _ _ _ hab hbc => le_trans hbc hab⟩

instance : IsTotal OrderBookEntry askOrderE :=
  ⟨fun a b => le_total a.price b.price⟩

instance : IsTrans OrderBookEntry askOrderE :=
  ⟨fun _ _ _ hab hbc => le_trans hab hbc⟩

/-- Source: `BybitWebSocketClient.handleOrderBookUpdate` for a known
symbol: build the new sides (wholesale on a snapshot, folded deltas
otherwise), sort bids descending and asks ascending, stamp the book
with the processing-time clock, store and emit.  There is no sequence
check and no truncation to the 100-level subscription depth. -/
def bybitHandleOrderBookUpdate (existingOrderBook : OrderBook)
    (msg : BybitOrderBookMsg) : OrderBook :=
  let updatedBids :=
    if msg.isSnapshot then
      msg.b.map (fun pq => { price := pq.1, quantity := pq.2 })
    else
      msg.b.foldl (fun side pq => bybitUpdateOrderBookSide side pq.1 pq.2)
        existingOrderBook.bids
  let updatedAsks :=
    if msg.isSnapshot then
      msg.a.map (fun pq => { price := pq.1, quantity := pq.2 })
    else
      msg.a.foldl (fun side pq => bybitUpdateOrderBookSide side pq.1 pq.2)
        existingOrderBook.asks
  { existingOrderBook with
    bids := updatedBids.insertionSort bidOrderE
    asks := updatedAsks.insertionSort askOrderE
    timestamp := msg.now }

/-- One step of the Bybit message stream: every processed frame for a
known symbol stores and emits the rebuilt book. -/
def bybitStep (st : OrderBook × List OrderBook) (m : BybitOrderBookMsg) :
    OrderBook × List OrderBook :=
  (bybitHandleOrderBookUpdate st.1 m,
   st.2 ++ [bybitHandleOrderBookUpdate st.1 m])

/-- The books emitted while folding a stream of Bybit frames into a
primed book. -/
def bybitEmittedBooks (book : OrderBook) (msgs : List BybitOrderBookMsg) :
    List OrderBook :=
  (msgs.foldl bybitStep (book, ([] : List OrderBook))).2

/-- Prices of a side, in order. -/
def pricesOf (entries : List OrderBookEntry) : List ℚ :=
  entries.map (fun e => e.price)

/-- A well-formed venue payload for one side: distinct price keys and
no zero quantities. -/
def goodPayload (levels : List (ℚ × ℚ)) : Prop :=
  (keysOf levels).Nodup ∧ valsNonzero levels

instance (levels : List (ℚ × ℚ)) : Decidable (goodPayload levels) :=
  inferInstanceAs (Decidable ((keysOf levels).Nodup ∧ ∀ pq ∈ levels, pq.2 ≠ 0))

/-- A minimal primed Bybit book for the C3 witness. -/
def bybitSmallPrimedBook : OrderBook :=
  { symbol := "BTCUSDT"
    exchange := "bybit"
    bids := [{ price := 2, quantity := 1 }]
    asks := [{ price := 3, quantity := 1 }]
    timestamp := 0
    lastUpdateId := none }

/-- A Bybit delta frame adding one bid below the best bid. -/
def bybitSmallDeltaMsg : BybitOrderBookMsg :=
  { isSnapshot := false, b := [(1, 4)], a := [], now := 7 }

/-- The book the small Bybit delta emits. -/
def bybitSmallEmittedBook : OrderBook :=
  { symbol := "BTCUSDT"
    exchange := "bybit"
    bids := [{ price := 2, quantity := 1 }, { price := 1, quantity := 4 }]
    asks := [{ price := 3, quantity := 1 }]
    timestamp := 7
    lastUpdateId := none }

/-- Source: `maxReconnectAttempts = 5` in `BaseExchange` and in the
Bybit client. -/
def maxReconnectAttempts : ℕ := 5

/-- Source: `handleReconnect` in `BaseExchange` (the Bybit client has
the identical body).  Given the current `reconnectAttempts` counter it
either schedules a retry — `some (newAttempts, delayMs)` with the
counter incremented before the delay is computed — or emits the
terminal error and schedules nothing (`none`). -/
def handleReconnect (reconnectAttempts : ℕ) : Option (ℕ × ℕ) :=
  if reconnectAttempts ≥ maxReconnectAttempts then none
  else some (reconnectAttempts + 1, min (1000 * 2 ^ (reconnectAttempts + 1)) 30000)

/-- Value of the attempts counter after `n` consecutive failures,
starting from a fresh connection (`reconnectAttempts = 0`); `none`
once the client has reached the terminal state. -/
def failureTrace : ℕ → Option ℕ
  | 0 => some 0
  | n + 1 => (failureTrace n).bind (fun a => (handleReconnect a).map Prod.fst)

/-- Outcome of the `n`-th consecutive failure (1-based): the scheduled
`(attempts, delay)` pair, or `none` for the terminal error. -/
def nthFailureOutcome (n : ℕ) : Option (ℕ × ℕ) :=
  (failureTrace (n - 1)).bind handleReconnect

/-- The sink: stored rows plus the auto-increment counter. -/
structure SinkState where
  rows : List (ℕ × ℕ)
  nextId : ℕ
deriving DecidableEq, Repr

/-- Row insert of `prisma.arbitrageOpportunity.create`: a fresh id and
the opportunity's detection timestamp. -/
def insertRow (sink : SinkState) (timestampMs : ℕ) : SinkState :=
  { rows := sink.rows ++ [(sink.nextId, timestampMs)], nextId := sink.nextId + 1 }

/-- Comparator of `orderBy: timestamp desc`: newer rows first. -/
def newerFirst (a b : ℕ × ℕ) : Prop := b.2 ≤ a.2

instance : DecidableRel newerFirst :=
  fun a b => (inferInstance : Decidable (b.2 ≤ a.2))

/-- The `findMany(orderBy: timestamp desc)` row order; ties keep the
stored order (stable sort). -/
def sortByTimestampDesc (rows : List (ℕ × ℕ)) : List (ℕ × ℕ) :=
  rows.insertionSort newerFirst

/-- Source: `cleanupOldOpportunities` — when more than 1000 rows
exist, take the id of the 1000th most recent row by timestamp
(`skip: 999, take: 1`) and delete every row with a smaller id
(`deleteMany where id < cutoff`). -/
def cleanupOldOpportunities (sink : SinkState) : SinkState :=
  if sink.rows.length > 1000 then
    ((sortByTimestampDesc sink.rows).drop 999).head?.elim sink
      (fun cutoff =>
        { sink with rows := sink.rows.filter (fun r => !decide (r.1 < cutoff.1)) })
  else sink

/-- Source: the success path of `saveOpportunityToDatabase`: insert the
row, then prune. -/
def appendAndClean (sink : SinkState) (timestampMs : ℕ) : SinkState :=
  cleanupOldOpportunities (insertRow sink timestampMs)

/-- A whole append history starting from an empty sink. -/
def runAppends (timestamps : List ℕ) : SinkState :=
  timestamps.foldl appendAndClean ⟨[], 0⟩

/-- An append history of 1001 opportunities whose first detection
timestamp (3000) is the newest: ids ascend while timestamps descend. -/
def outOfOrderTimestamps : List ℕ :=
  (List.range 1001).map (fun i => 3000 - i)

/-! ### Detector state (`OpportunityDetector` mutable fields) -/

/-- The detector's mutable state: configuration, trade amount, the
`(venue:symbol) → latest book` map (a JS `Map`, insertion-ordered) and
the throttle clock. -/
structure DetectorState where
  config : OpportunityConfig
  tradeAmount : ℚ
  orderBooks : List (String × OrderBook)
  lastOpportunityCheck : ℤ
deriving DecidableEq, Repr

/-- The map key `` `${orderBook.exchange}:${orderBook.symbol}` ``. -/
def bookKey (orderBook : OrderBook) : String :=
  orderBook.exchange ++ ":" ++ orderBook.symbol

/-- JS `Map.set` on the book map: replace in place or append. -/
def setBook (books : List (String × OrderBook)) (key : String)
    (orderBook : OrderBook) : List (String × OrderBook) :=
  if books.any (fun kv => kv.1 == key) then
    books.map (fun kv => if kv.1 = key then (key, orderBook) else kv)
  else books ++ [(key, orderBook)]

/-- Source: `OpportunityDetector.isOrderBookFresh`. -/
def isOrderBookFresh (config : OpportunityConfig) (now : ℤ)
    (orderBook : OrderBook) : Bool :=
  decide (now - orderBook.timestamp ≤ config.maxSpreadAge)

/-- Source: `OpportunityDetector.updateOrderBook` — store the book
under its key, then run a scan if the last one is more than 1000 ms
old (the returned flag says whether the scan ran). -/
def updateOrderBook (st : DetectorState) (now : ℤ) (orderBook : OrderBook) :
    DetectorState × Bool :=
  let orderBooks := setBook st.orderBooks (bookKey orderBook) orderBook
  if now - st.lastOpportunityCheck > 1000 then
    ({ st with orderBooks := orderBooks, lastOpportunityCheck := now }, true)
  else
    ({ st with orderBooks := orderBooks }, false)

/-- Optional fields of a `Partial<OpportunityConfig>` argument. -/
structure OpportunityConfigPatch where
  minProfitPercent : Option ℚ := none
  slippageBuffer : Option ℚ := none
  maxSpreadAge : Option ℤ := none
deriving DecidableEq, Repr

/-- Source: `OpportunityDetector.updateConfig` (an `Object.assign`
merge of the provided fields). -/
def updateConfig (st : DetectorState) (patch : OpportunityConfigPatch) :
    DetectorState :=
  { st with
    config :=
      { minProfitPercent := patch.minProfitPercent.getD st.config.minProfitPercent
        slippageBuffer := patch.slippageBuffer.getD st.config.slippageBuffer
        maxSpreadAge := patch.maxSpreadAge.getD st.config.maxSpreadAge } }

/-- Source: `OpportunityDetector.updateTradeAmount`. -/
def updateTradeAmount (st : DetectorState) (amount : ℚ) : DetectorState :=
  { st with tradeAmount := amount }

/-- The books `findArbitrageOpportunities symbol` considers: every
stored book whose normalized symbol matches and which is fresh — the
configuration holds no venue or symbol set that could exclude one. -/
def freshBooksForSymbol (st : DetectorState) (now : ℤ) (symbol : String) :
    List OrderBook :=
  (st.orderBooks.map Prod.snd).filter
    (fun ob => normalizeSymbol ob.symbol == symbol &&
      isOrderBookFresh st.config now ob)

/-- Concrete book used by the C10 witness: a stored Binance book. -/
def storedBinanceBook : OrderBook :=
  { symbol := "BTCUSDT", exchange := "binance", bids := [], asks := []
    timestamp := 0 }

/-- Concrete book used by the C10 witness: a fresh Coinbase book. -/
def incomingCoinbaseBook : OrderBook :=
  { symbol := "BTC-USD", exchange := "coinbase", bids := [], asks := []
    timestamp := 100 }

/-- The cache key `` `orderbook:${exchange}:${symbol}` ``. -/
def cacheKey (orderBook : OrderBook) : String :=
  "orderbook:" ++ orderBook.exchange ++ ":" ++ orderBook.symbol

/-- A cache write (redis `setEx`; the 10 s TTL is not modelled). -/
def setCacheEntry (cache : List (String × OrderBook)) (key : String)
    (orderBook : OrderBook) : List (String × OrderBook) :=
  if cache.any (fun kv => kv.1 == key) then
    cache.map (fun kv => if kv.1 = key then (key, orderBook) else kv)
  else cache ++ [(key, orderBook)]

/-- The observable state the manager's intake path touches. -/
structure ManagerWorld where
  cache : List (String × OrderBook)
  detector : DetectorState
  emittedEvents : List OrderBook
  errorLogCount : ℕ
deriving Repr

/-- Source: `handleOrderBookUpdate` — cache write, detector hand-off,
local re-emit, wrapped in one `try`; a `catch` only logs.  The cache
write (`await redisClient.setEx`) is the fallible step, modelled by
`cacheWriteFails`; the remaining two steps are synchronous and
total. -/
def handleOrderBookUpdateM (w : ManagerWorld) (now : ℤ)
    (orderBook : OrderBook) (cacheWriteFails : Bool) : ManagerWorld :=
  if cacheWriteFails then { w with errorLogCount := w.errorLogCount + 1 }
  else
    { w with
      cache := setCacheEntry w.cache (cacheKey orderBook) orderBook
      detector := (updateOrderBook w.detector now orderBook).1
      emittedEvents := w.emittedEvents ++ [orderBook] }

/-- Default `(ws_url, rest_url)` used by the upsert (source:
`ensureExchangesExist`). -/
def exchangeDefaults (name : String) : String × String :=
  if name = "binance" then
    ("wss://stream.binance.com:9443/ws", "https://api.binance.com/api/v3")
  else
    ("wss://ws-feed.exchange.coinbase.com", "https://api.exchange.coinbase.com")

/-- Modelled from the spec: the sink's venue table keyed by `name`
holding `(ws_url, rest_url)` (§6; the Prisma schema itself is outside
`src/`).  `upsert` with an empty update is insert-if-absent. -/
def upsertExchange (rows : List (String × String × String)) (name : String) :
    List (String × String × String) :=
  if rows.any (fun r => r.1 == name) then rows
  else rows ++ [(name, (exchangeDefaults name).1, (exchangeDefaults name).2)]

/-- Source: `ensureExchangesExist` — upserts the fixed pair
`['binance', 'coinbase']`, regardless of which venues the failing
opportunity references. -/
def ensureExchangesExist (rows : List (String × String × String)) :
    List (String × String × String) :=
  upsertExchange (upsertExchange rows "binance") "coinbase"

/-- Venue names present in the venue table. -/
def exchangeNames (rows : List (String × String × String)) : List String :=
  rows.map Prod.fst

/-- The sink's visible state: the venue table, a count of inserted
opportunity rows, and a flag injecting environmental (non-FK)
failures. -/
structure OpportunitySinkDb where
  exchanges : List (String × String × String)
  saved : ℕ
  healthy : Bool
deriving DecidableEq, Repr

/-- Outcome of one `prisma.arbitrageOpportunity.create` call. -/
inductive CreateOutcome where
  | ok
  | fkViolation
  | otherError
deriving DecidableEq, Repr

/-- Modelled from the spec: the insert fails with a foreign-key
violation when a referenced venue row is missing (§6's companion venue
table), and with some other error when the store is unhealthy. -/
def createOpportunityRow (db : OpportunitySinkDb)
    (opportunity : ArbitrageOpportunity) : CreateOutcome :=
  if db.healthy = false then .otherError
  else if opportunity.buyExchange ∈ exchangeNames db.exchanges ∧
      opportunity.sellExchange ∈ exchangeNames db.exchanges then .ok
  else .fkViolation

/-- Result of the save path; `outOfFuel` stands for the unbounded
recursion never returning. -/
inductive SaveResult where
  | saved
  | errorLogged
  | outOfFuel
deriving DecidableEq, Repr

/-- Source: `saveOpportunityToDatabase` — try the insert; on a
foreign-key error run `ensureExchangesExist` and recurse (the source
recursion is unbounded, hence the fuel); any other error is logged and
swallowed.  The retention pruning after a successful insert is
modelled separately by `cleanupOldOpportunities`. -/
def saveOpportunityToDatabase :
    ℕ → OpportunitySinkDb → ArbitrageOpportunity →
      OpportunitySinkDb × SaveResult
  | 0, db, _ => (db, .outOfFuel)
  | fuel + 1, db, opportunity =>
    match createOpportunityRow db opportunity with
    | .ok => ({ db with saved := db.saved + 1 }, .saved)
    | .fkViolation =>
      saveOpportunityToDatabase fuel
        { db with exchanges := ensureExchangesExist db.exchanges } opportunity
    | .otherError => (db, .errorLogged)

/-- Source: `handleOpportunity` — `await` the save, then emit
`opportunity_detected`; the event is emitted whenever the save path
returns (both on success and on a logged error), and never if the save
path does not return. -/
def handleOpportunity (fuel : ℕ) (db : OpportunitySinkDb)
    (opportunity : ArbitrageOpportunity) :
    OpportunitySinkDb × SaveResult × Bool :=
  let result := saveOpportunityToDatabase fuel db opportunity
  (result.1, result.2, decide (result.2 ≠ SaveResult.outOfFuel))

/-- The references of an opportunity are covered once the fixed upsert
pair has been added. -/
def referencedCovered (db : OpportunitySinkDb)
    (opportunity : ArbitrageOpportunity) : Prop :=
  opportunity.buyExchange ∈ exchangeNames (ensureExchangesExist db.exchanges) ∧
  opportunity.sellExchange ∈ exchangeNames (ensureExchangesExist db.exchanges)

instance (db : OpportunitySinkDb) (opportunity : ArbitrageOpportunity) :
    Decidable (referencedCovered db opportunity) :=
  inferInstanceAs (Decidable (_ ∈ _ ∧ _ ∈ _))

/-- An opportunity referencing a venue outside the fixed upsert pair. -/
def krakenOpportunity : ArbitrageOpportunity :=
  { symbol := "BTCUSD", buyExchange := "kraken", sellExchange := "binance"
    buyPrice := 100, sellPrice := 101, spread := 10, spreadPercent := 1
    estimatedProfit := 10, buyFee := 1, sellFee := 1, totalFee := 2 }

/-- An opportunity covered by the fixed upsert pair. -/
def coveredOpportunity : ArbitrageOpportunity :=
  { symbol := "BTCUSD", buyExchange := "binance", sellExchange := "coinbase"
    buyPrice := 100, sellPrice := 101, spread := 10, spreadPercent := 1
    estimatedProfit := 10, buyFee := 1, sellFee := 1, totalFee := 2 }

/-! ### Claim C1: emission threshold -/

/-- C1 counterexample: with `minProfitPercent = 0` and
`slippageBuffer = -1` the direction alpha→beta has
`profit_percent = -0.2 ≥ min_profit_percent + slippage_buffer = -1`,
yet the detector emits nothing, because `calculateOpportunity` already
rejects any profit below `minProfitPercent` alone.  The claimed
equivalence "emits iff `profit_percent ≥ min + slippage`" is false. -/
theorem claim1_counterexample :
    emitsDirection negativeSlippageConfig 1000
      narrowSpreadBuyBook narrowSpreadSellBook "XUSD" = false ∧
    profitPercent 1000 "alpha" "beta" 100 100 ≥
      negativeSlippageConfig.minProfitPercent +
        negativeSlippageConfig.slippageBuffer := by
  have hnone : calculateOpportunity negativeSlippageConfig 1000
      narrowSpreadBuyBook narrowSpreadSellBook "XUSD" = none := by
    simp only [calculateOpportunity, narrowSpreadBuyBook, narrowSpreadSellBook,
      List.head?_cons]
    rw [if_pos]
    simp [negativeSlippageConfig, takerFee]
    norm_num
  constructor
  · simp [emitsDirection, hnone]
  · simp [profitPercent, negativeSlippageConfig, takerFee]
    norm_num

/-- C1 (amended): for fresh books with non-empty relevant sides, the
detector emits the direction buy-on-A/sell-on-B iff the profit
percentage (computed by the exact §4.4 formula) is at least
`minProfitPercent` and at least `minProfitPercent + slippageBuffer`;
when the slippage buffer is non-negative this is exactly the claimed
single threshold, and exact equality qualifies. -/
theorem claim1_amended (config : OpportunityConfig) (tradeAmount : ℚ)
    (buyOrderBook sellOrderBook : OrderBook) (symbol : String)
    (bestBid bestAsk : OrderBookEntry)
    (hBid : sellOrderBook.bids.head? = some bestBid)
    (hAsk : buyOrderBook.asks.head? = some bestAsk) :
    emitsDirection config tradeAmount buyOrderBook sellOrderBook symbol = true ↔
      (config.minProfitPercent ≤
        profitPercent tradeAmount buyOrderBook.exchange sellOrderBook.exchange
          bestAsk.price bestBid.price ∧
       config.minProfitPercent + config.slippageBuffer ≤
        profitPercent tradeAmount buyOrderBook.exchange sellOrderBook.exchange
          bestAsk.price bestBid.price) := by
  unfold emitsDirection calculateOpportunity
  rw [hBid, hAsk]
  simp only [profitPercent]
  by_cases h :
      (bestBid.price * (tradeAmount / bestAsk.price) - tradeAmount -
        (tradeAmount * takerFee buyOrderBook.exchange +
          bestBid.price * (tradeAmount / bestAsk.price) *
            takerFee sellOrderBook.exchange)) / tradeAmount * 100 <
      config.minProfitPercent
  · simp only [if_pos h]
    constructor
    · intro hfalse
      exact absurd hfalse (by simp)
    · intro hc
      exact absurd hc.1 (not_le.mpr h)
  · simp only [if_neg h, isProfitableOpportunity]
    push_neg at h
    simp [h, ge_iff_le]

/-- Closed instance of `claim1_amended` at the scenario-1 books. -/
theorem claim1_witness :
    emitsDirection detectorDefaultConfig 1000
      scenarioBinanceBook scenarioCoinbaseBook "BTCUSD" = true ↔
      (detectorDefaultConfig.minProfitPercent ≤
        profitPercent 1000 "binance" "coinbase" 10000 10200 ∧
       detectorDefaultConfig.minProfitPercent +
          detectorDefaultConfig.slippageBuffer ≤
        profitPercent 1000 "binance" "coinbase" 10000 10200) :=
  claim1_amended detectorDefaultConfig 1000 scenarioBinanceBook
    scenarioCoinbaseBook "BTCUSD" ⟨10200, 1⟩ ⟨10000, 1⟩ rfl rfl

/-! ### Claim C4: construction-time defaults -/

/-- C4 counterexample: the detector is constructed with
`minProfitPercent = -0.5` and `slippageBuffer = 0`, not the claimed
`0.1` and `0.1`. -/
theorem claim4_counterexample :
    detectorDefaultConfig.minProfitPercent ≠ 0.1 ∧
    detectorDefaultConfig.slippageBuffer ≠ 0.1 := by
  constructor <;> · simp only [detectorDefaultConfig]; norm_num

/-- C4 (amended): a detector constructed without explicit configuration
uses `minProfitPercent = -0.5`, `slippageBuffer = 0`,
`maxSpreadAge = 5000` ms, a hard-coded 1000 ms check interval, a
1000 USD trade amount, and a hard-coded retention bound of 1000 rows. -/
theorem claim4_amended :
    detectorDefaultConfig.minProfitPercent = -0.5 ∧
    detectorDefaultConfig.slippageBuffer = 0 ∧
    detectorDefaultConfig.maxSpreadAge = 5000 ∧
    checkIntervalMs = 1000 ∧
    defaultTradeAmount = 1000 ∧
    retentionCount = 1000 := by
  refine ⟨rfl, ?_, rfl, rfl, rfl, rfl⟩
  simp only [detectorDefaultConfig]
  norm_num

/-! ### Claim C7: canonical/native round trip -/

/-- C7 counterexample: the recipe for binance produces the native form
`ETHBNB` for the canonical symbol `ETHBNB` (quote `BNB` is parseable on
the canonical side), but `fromExchangeSymbol` cannot parse it back —
its quote list lacks `BNB` — so the round trip returns `none`, not the
original symbol. -/
theorem claim7_counterexample :
    toExchangeSymbol "ETHBNB" "binance" = some "ETHBNB" ∧
    (toExchangeSymbol "ETHBNB" "binance").bind
      (fun e => fromExchangeSymbol e "binance") = none := by
  decide

/-- C7 (amended): for every venue and every canonical symbol derived
from a native symbol registered for that venue, converting the
canonical symbol to the venue's native spelling and canonicalizing the
result returns the same canonical symbol. -/
theorem claim7_amended :
    mapperVenueIds.all
      (fun v => (getSupportedSymbols v).all (exampleRoundTrip v)) = true := by
  decide

/-! ### Claim C2: detector grouping vs registry canonical form -/

/-- C2 counterexample: Kraken's native `XBT/USD` is grouped by the
detector under `XBT/USD` itself (no alias mapping, the slash is kept),
while the registry canonicalizes it to `BTCUSD`; Binance's `BTCUSDT`
is grouped under `BTCUSD`, so the two venues' books for the same pair
do not share a scan group. -/
theorem claim2_counterexample :
    normalizeSymbol "XBT/USD" = "XBT/USD" ∧
    fromExchangeSymbol "XBT/USD" "kraken" = some "BTCUSD" ∧
    normalizeSymbol "BTCUSDT" = "BTCUSD" ∧
    normalizeSymbol "XBT/USD" ≠ normalizeSymbol "BTCUSDT" := by
  decide

/-- C2 (amended): the detector groups a book by
`normalizeSymbol` — dash removal plus `USDT`→`USD` only, with no
uppercasing, no asset-alias mapping and no slash handling.  This
agrees with the registry's canonical form for every native symbol
registered for binance, bybit, coinbase and kucoin, and disagrees for
every native symbol registered for kraken and for gemini. -/
theorem claim2_amended :
    (["binance", "bybit", "coinbase", "kucoin"].all fun v =>
      (getSupportedSymbols v).all fun e =>
        decide (fromExchangeSymbol e v = some (normalizeSymbol e))) = true ∧
    (["kraken", "gemini"].all fun v =>
      (getSupportedSymbols v).all fun e =>
        decide (fromExchangeSymbol e v ≠ some (normalizeSymbol e))) = true := by
  constructor
  · decide
  · decide

lemma keysOf_setPrice_nodup {m : List (ℚ × ℚ)} (p q : ℚ)
    (h : (keysOf m).Nodup) : (keysOf (setPrice m p q)).Nodup := by
  unfold setPrice keysOf at *
  split
  case isTrue hAny =>
    have hmap : (m.map (fun pq => if pq.1 = p then (p, q) else pq)).map Prod.fst
        = m.map Prod.fst := by
      rw [List.map_map]
      apply List.map_congr_left
      intro pq _
      simp only [Function.comp_apply]
      by_cases hpq : pq.1 = p
      · rw [if_pos hpq]
        exact hpq.symm
      · rw [if_neg hpq]
    rw [hmap]
    exact h
  case isFalse hAny =>
    rw [List.map_append, List.nodup_append]
    refine ⟨h, List.nodup_singleton p, ?_⟩
    have hp : ∀ pq ∈ m, ¬ pq.1 = p := by
      intro pq hpq heq
      exact hAny (List.any_eq_true.mpr ⟨pq, hpq, by simp [heq]⟩)
    intro x hx hmem
    obtain ⟨pq, hpq, rfl⟩ := List.mem_map.mp hx
    exact hp pq hpq (List.eq_of_mem_singleton hmem)

lemma valsNonzero_setPrice {m : List (ℚ × ℚ)} {p q : ℚ}
    (h : valsNonzero m) (hq : q ≠ 0) : valsNonzero (setPrice m p q) := by
  unfold setPrice
  split
  · intro pq hpq
    obtain ⟨orig, horig, rfl⟩ := List.mem_map.mp hpq
    by_cases horig1 : orig.1 = p
    · simpa [horig1] using hq
    · simpa [horig1] using h orig horig
  · intro pq hpq
    rcases List.mem_append.mp hpq with hmem | hmem
    · exact h pq hmem
    · simp only [List.mem_singleton] at hmem
      subst hmem
      simpa using hq

lemma keysOf_deletePrice_nodup {m : List (ℚ × ℚ)} (p : ℚ)
    (h : (keysOf m).Nodup) : (keysOf (deletePrice m p)).Nodup := by
  unfold deletePrice keysOf at *
  exact h.sublist (List.Sublist.map Prod.fst (List.filter_sublist m))

lemma valsNonzero_deletePrice {m : List (ℚ × ℚ)} (p : ℚ)
    (h : valsNonzero m) : valsNonzero (deletePrice m p) := by
  intro pq hpq
  exact h pq (List.mem_of_mem_filter hpq)

lemma foldl_setPrice_invariants :
    ∀ (existing : List OrderBookEntry) (m : List (ℚ × ℚ)),
      (keysOf m).Nodup → valsNonzero m → zeroFree existing →
      (keysOf (existing.foldl (fun acc e => setPrice acc e.price e.quantity) m)).Nodup ∧
      valsNonzero (existing.foldl (fun acc e => setPrice acc e.price e.quantity) m)
  | [], _, h1, h2, _ => ⟨h1, h2⟩
  | e :: rest, m, h1, h2, hz => by
    simp only [List.foldl_cons]
    exact foldl_setPrice_invariants rest _
      (keysOf_setPrice_nodup _ _ h1)
      (valsNonzero_setPrice h2 (hz e (by simp)))
      (fun x hx => hz x (by simp [hx]))

lemma buildPriceMap_invariants (existing : List OrderBookEntry)
    (h : zeroFree existing) :
    (keysOf (buildPriceMap existing)).Nodup ∧ valsNonzero (buildPriceMap existing) :=
  foldl_setPrice_invariants existing [] (by simp [keysOf]) (by intro pq hpq; cases hpq) h

lemma foldl_applyDepthEntry_invariants :
    ∀ (updates : List (ℚ × ℚ)) (m : List (ℚ × ℚ)),
      (keysOf m).Nodup → valsNonzero m →
      (keysOf (updates.foldl applyDepthEntry m)).Nodup ∧
      valsNonzero (updates.foldl applyDepthEntry m)
  | [], _, h1, h2 => ⟨h1, h2⟩
  | u :: rest, m, h1, h2 => by
    simp only [List.foldl_cons]
    unfold applyDepthEntry
    by_cases hu : u.2 = 0
    · simp only [if_pos hu]
      exact foldl_applyDepthEntry_invariants rest _
        (keysOf_deletePrice_nodup _ h1) (valsNonzero_deletePrice _ h2)
    · simp only [if_neg hu]
      exact foldl_applyDepthEntry_invariants rest _
        (keysOf_setPrice_nodup _ _ h1) (valsNonzero_setPrice h2 hu)

lemma updateOrderBookSide_bids_ok (existing : List OrderBookEntry)
    (updates : List (ℚ × ℚ)) (h : zeroFree existing) :
    strictlyDescendingPrices (updateOrderBookSide existing updates .bids) ∧
    zeroFree (updateOrderBookSide existing updates .bids) := by
  have hbuild := buildPriceMap_invariants existing h
  have happly := foldl_applyDepthEntry_invariants updates _ hbuild.1 hbuild.2
  unfold updateOrderBookSide
  set applied := updates.foldl applyDepthEntry (buildPriceMap existing) with happlied
  have hperm : List.Perm (applied.insertionSort bidOrder) applied :=
    List.perm_insertionSort bidOrder applied
  have hsorted : (applied.insertionSort bidOrder).Pairwise bidOrder :=
    List.sorted_insertionSort bidOrder applied
  have hkeys : ((applied.insertionSort bidOrder).map Prod.fst).Nodup :=
    (List.Perm.nodup_iff (hperm.map Prod.fst)).mpr happly.1
  have hne : (applied.insertionSort bidOrder).Pairwise (fun a b => a.1 ≠ b.1) :=
    List.pairwise_map.mp hkeys
  constructor
  · unfold strictlyDescendingPrices
    rw [List.pairwise_map]
    exact (hsorted.and hne).imp
      (fun hab => lt_of_le_of_ne hab.1 (fun heq => hab.2 heq.symm))
  · intro e he
    obtain ⟨pq, hpq, rfl⟩ := List.mem_map.mp he
    exact happly.2 pq (hperm.mem_iff.mp hpq)

lemma updateOrderBookSide_asks_ok (existing : List OrderBookEntry)
    (updates : List (ℚ × ℚ)) (h : zeroFree existing) :
    strictlyAscendingPrices (updateOrderBookSide existing updates .asks) ∧
    zeroFree (updateOrderBookSide existing updates .asks) := by
  have hbuild := buildPriceMap_invariants existing h
  have happly := foldl_applyDepthEntry_invariants updates _ hbuild.1 hbuild.2
  unfold updateOrderBookSide
  set applied := updates.foldl applyDepthEntry (buildPriceMap existing) with happlied
  have hperm : List.Perm (applied.insertionSort askOrder) applied :=
    List.perm_insertionSort askOrder applied
  have hsorted : (applied.insertionSort askOrder).Pairwise askOrder :=
    List.sorted_insertionSort askOrder applied
  have hkeys : ((applied.insertionSort askOrder).map Prod.fst).Nodup :=
    (List.Perm.nodup_iff (hperm.map Prod.fst)).mpr happly.1
  have hne : (applied.insertionSort askOrder).Pairwise (fun a b => a.1 ≠ b.1) :=
    List.pairwise_map.mp hkeys
  constructor
  · unfold strictlyAscendingPrices
    rw [List.pairwise_map]
    exact (hsorted.and hne).imp (fun hab => lt_of_le_of_ne hab.1 hab.2)
  · intro e he
    obtain ⟨pq, hpq, rfl⟩ := List.mem_map.mp he
    exact happly.2 pq (hperm.mem_iff.mp hpq)

lemma handleDepthUpdate_ok {book : OrderBook} {update : BinanceDepthUpdate}
    {b2 : OrderBook} (hB : zeroFree book.bids) (hA : zeroFree book.asks)
    (h : handleDepthUpdate book update = some b2) : emittedBookOk b2 := by
  have happly : emittedBookOk (applyBinanceDepthUpdate book update) := by
    have hb := updateOrderBookSide_bids_ok book.bids update.b hB
    have ha := updateOrderBookSide_asks_ok book.asks update.a hA
    exact ⟨hb.1, ha.1, hb.2, ha.2⟩
  unfold handleDepthUpdate at h
  by_cases hskip : staleSeq book.lastUpdateId update.U
  · rw [if_pos hskip] at h
    cases h
  · rw [if_neg hskip] at h
    cases h
    exact happly

lemma binanceEmitted_aux :
    ∀ (updates : List BinanceDepthUpdate) (book : OrderBook)
      (acc : List OrderBook),
      zeroFree book.bids → zeroFree book.asks →
      (∀ x ∈ acc, emittedBookOk x) →
      ∀ x ∈ (updates.foldl binanceStep (book, acc)).2, emittedBookOk x
  | [], _, _, _, _, hacc => hacc
  | u :: rest, book, acc, hB, hA, hacc => by
    simp only [List.foldl_cons]
    unfold binanceStep
    cases hstep : handleDepthUpdate book u with
    | none =>
      simp only []
      exact binanceEmitted_aux rest book acc hB hA hacc
    | some b2 =>
      simp only []
      have hok := handleDepthUpdate_ok hB hA hstep
      refine binanceEmitted_aux rest b2 (acc ++ [b2]) hok.2.2.1 hok.2.2.2 ?_
      intro x hx
      rcases List.mem_append.mp hx with hx | hx
      · exact hacc x hx
      · simp only [List.mem_singleton] at hx
        subst hx
        exact hok

lemma bybitSide_invariants {existing : List OrderBookEntry} (p q : ℚ)
    (h1 : (pricesOf existing).Nodup) (h2 : zeroFree existing) :
    (pricesOf (bybitUpdateOrderBookSide existing p q)).Nodup ∧
    zeroFree (bybitUpdateOrderBookSide existing p q) := by
  unfold bybitUpdateOrderBookSide
  have hsub : (pricesOf (existing.filter (fun e => e.price != p))).Nodup :=
    h1.sublist (List.Sublist.map _ (List.filter_sublist existing))
  have hzf : zeroFree (existing.filter (fun e => e.price != p)) :=
    fun e he => h2 e (List.mem_of_mem_filter he)
  have hne : ∀ e ∈ existing.filter (fun e => e.price != p), e.price ≠ p := by
    intro e he
    have hmem := List.of_mem_filter he
    simpa using hmem
  by_cases hq : 0 < q
  · rw [if_pos hq]
    constructor
    · unfold pricesOf at hsub ⊢
      rw [List.map_append, List.nodup_append]
      refine ⟨hsub, by simp, ?_⟩
      intro x hx hmem
      obtain ⟨e, he, rfl⟩ := List.mem_map.mp hx
      simp only [List.map_cons, List.map_nil, List.mem_singleton] at hmem
      exact hne e he hmem
    · intro e he
      rcases List.mem_append.mp he with hmem | hmem
      · exact hzf e hmem
      · simp only [List.mem_singleton] at hmem
        subst hmem
        exact ne_of_gt hq
  · rw [if_neg hq]
    rw [List.append_nil]
    exact ⟨hsub, hzf⟩

lemma bybitFold_invariants :
    ∀ (updates : List (ℚ × ℚ)) (side : List OrderBookEntry),
      (pricesOf side).Nodup → zeroFree side →
      (pricesOf (updates.foldl
        (fun side pq => bybitUpdateOrderBookSide side pq.1 pq.2) side)).Nodup ∧
      zeroFree (updates.foldl
        (fun side pq => bybitUpdateOrderBookSide side pq.1 pq.2) side)
  | [], _, h1, h2 => ⟨h1, h2⟩
  | u :: rest, side, h1, h2 => by
    simp only [List.foldl_cons]
    have h := bybitSide_invariants u.1 u.2 h1 h2
    exact bybitFold_invariants rest _ h.1 h.2

lemma snapshotSide_invariants {levels : List (ℚ × ℚ)} (h : goodPayload levels) :
    (pricesOf (levels.map
      (fun pq => ({ price := pq.1, quantity := pq.2 } : OrderBookEntry)))).Nodup ∧
    zeroFree (levels.map
      (fun pq => ({ price := pq.1, quantity := pq.2 } : OrderBookEntry))) := by
  constructor
  · unfold pricesOf
    rw [List.map_map]
    exact h.1
  · intro e he
    obtain ⟨pq, hpq, rfl⟩ := List.mem_map.mp he
    exact h.2 pq hpq

lemma bybitSort_bids_ok {side : List OrderBookEntry}
    (h1 : (pricesOf side).Nodup) (h2 : zeroFree side) :
    strictlyDescendingPrices (side.insertionSort bidOrderE) ∧
    zeroFree (side.insertionSort bidOrderE) ∧
    (pricesOf (side.insertionSort bidOrderE)).Nodup := by
  have hperm : List.Perm (side.insertionSort bidOrderE) side :=
    List.perm_insertionSort bidOrderE side
  have hsorted : (side.insertionSort bidOrderE).Pairwise bidOrderE :=
    List.sorted_insertionSort bidOrderE side
  have hkeys : (pricesOf (side.insertionSort bidOrderE)).Nodup := by
    unfold pricesOf at h1 ⊢
    exact (List.Perm.nodup_iff (hperm.map _)).mpr h1
  have hne : (side.insertionSort bidOrderE).Pairwise
      (fun a b => a.price ≠ b.price) := by
    have hkeys2 := hkeys
    unfold pricesOf at hkeys2
    exact List.pairwise_map.mp hkeys2
  refine ⟨?_, ?_, hkeys⟩
  · unfold strictlyDescendingPrices
    exact (hsorted.and hne).imp
      (fun hab => lt_of_le_of_ne hab.1 (fun heq => hab.2 heq.symm))
  · intro e he
    exact h2 e (hperm.mem_iff.mp he)

lemma bybitSort_asks_ok {side : List OrderBookEntry}
    (h1 : (pricesOf side).Nodup) (h2 : zeroFree side) :
    strictlyAscendingPrices (side.insertionSort askOrderE) ∧
    zeroFree (side.insertionSort askOrderE) ∧
    (pricesOf (side.insertionSort askOrderE)).Nodup := by
  have hperm : List.Perm (side.insertionSort askOrderE) side :=
    List.perm_insertionSort askOrderE side
  have hsorted : (side.insertionSort askOrderE).Pairwise askOrderE :=
    List.sorted_insertionSort askOrderE side
  have hkeys : (pricesOf (side.insertionSort askOrderE)).Nodup := by
    unfold pricesOf at h1 ⊢
    exact (List.Perm.nodup_iff (hperm.map _)).mpr h1
  have hne : (side.insertionSort askOrderE).Pairwise
      (fun a b => a.price ≠ b.price) := by
    have hkeys2 := hkeys
    unfold pricesOf at hkeys2
    exact List.pairwise_map.mp hkeys2
  refine ⟨?_, ?_, hkeys⟩
  · unfold strictlyAscendingPrices
    exact (hsorted.and hne).imp (fun hab => lt_of_le_of_ne hab.1 hab.2)
  · intro e he
    exact h2 e (hperm.mem_iff.mp he)

lemma bybitHandle_ok {book : OrderBook} {msg : BybitOrderBookMsg}
    (hBn : (pricesOf book.bids).Nodup) (hB : zeroFree book.bids)
    (hAn : (pricesOf book.asks).Nodup) (hA : zeroFree book.asks)
    (hsnap : msg.isSnapshot = true → goodPayload msg.b ∧ goodPayload msg.a) :
    emittedBookOk (bybitHandleOrderBookUpdate book msg) ∧
    (pricesOf (bybitHandleOrderBookUpdate book msg).bids).Nodup ∧
    (pricesOf (bybitHandleOrderBookUpdate book msg).asks).Nodup := by
  cases hs : msg.isSnapshot with
  | true =>
    have hb := snapshotSide_invariants (hsnap hs).1
    have ha := snapshotSide_invariants (hsnap hs).2
    have hbs := bybitSort_bids_ok hb.1 hb.2
    have has := bybitSort_asks_ok ha.1 ha.2
    have hbids : (bybitHandleOrderBookUpdate book msg).bids
        = (msg.b.map (fun pq => { price := pq.1, quantity := pq.2 })).insertionSort
            bidOrderE := by
      simp [bybitHandleOrderBookUpdate, hs]
    have hasks : (bybitHandleOrderBookUpdate book msg).asks
        = (msg.a.map (fun pq => { price := pq.1, quantity := pq.2 })).insertionSort
            askOrderE := by
      simp [bybitHandleOrderBookUpdate, hs]
    rw [emittedBookOk, hbids, hasks]
    exact ⟨⟨hbs.1, has.1, hbs.2.1, has.2.1⟩, hbs.2.2, has.2.2⟩
  | false =>
    have hb := bybitFold_invariants msg.b book.bids hBn hB
    have ha := bybitFold_invariants msg.a book.asks hAn hA
    have hbs := bybitSort_bids_ok hb.1 hb.2
    have has := bybitSort_asks_ok ha.1 ha.2
    have hbids : (bybitHandleOrderBookUpdate book msg).bids
        = (msg.b.foldl (fun side pq => bybitUpdateOrderBookSide side pq.1 pq.2)
            book.bids).insertionSort bidOrderE := by
      simp [bybitHandleOrderBookUpdate, hs]
    have hasks : (bybitHandleOrderBookUpdate book msg).asks
        = (msg.a.foldl (fun side pq => bybitUpdateOrderBookSide side pq.1 pq.2)
            book.asks).insertionSort askOrderE := by
      simp [bybitHandleOrderBookUpdate, hs]
    rw [emittedBookOk, hbids, hasks]
    exact ⟨⟨hbs.1, has.1, hbs.2.1, has.2.1⟩, hbs.2.2, has.2.2⟩

lemma bybitEmitted_aux :
    ∀ (msgs : List BybitOrderBookMsg) (book : OrderBook)
      (acc : List OrderBook),
      (pricesOf book.bids).Nodup → zeroFree book.bids →
      (pricesOf book.asks).Nodup → zeroFree book.asks →
      (∀ m ∈ msgs, m.isSnapshot = true → goodPayload m.b ∧ goodPayload m.a) →
      (∀ x ∈ acc, emittedBookOk x) →
      ∀ x ∈ (msgs.foldl bybitStep (book, acc)).2, emittedBookOk x
  | [], _, _, _, _, _, _, _, hacc => hacc
  | m :: rest, book, acc, hBn, hB, hAn, hA, hsnap, hacc => by
    simp only [List.foldl_cons]
    unfold bybitStep
    have hok := bybitHandle_ok hBn hB hAn hA (hsnap m (by simp))
    refine bybitEmitted_aux rest (bybitHandleOrderBookUpdate book m)
      (acc ++ [bybitHandleOrderBookUpdate book m])
      hok.2.1 hok.1.2.2.1 hok.2.2 hok.1.2.2.2
      (fun m2 hm2 => hsnap m2 (by simp [hm2])) ?_
    intro x hx
    rcases List.mem_append.mp hx with hx | hx
    · exact hacc x hx
    · simp only [List.mem_singleton] at hx
      subst hx
      exact hok.1

/-! ### Claim C3: emitted order-book invariants -/

set_option maxRecDepth 100000 in
/-- C3 counterexample: applying one incremental update to a book that
is already at the 50-level Binance snapshot limit emits a book with a
51-level bid side — `updateOrderBookSide` never truncates to K. -/
theorem claim3_counterexample :
    (handleDepthUpdate fiftyLevelBook extraBidUpdate).map
      (fun b => b.bids.length) = some 51 ∧
    binanceSnapshotDepthLimit = 50 := by
  decide

/-- C3 (amended): every book emitted by the Binance client after any
sequence of incremental depth updates applied to a primed book without
zero-quantity levels, and every book emitted by the Bybit client after
any sequence of snapshot or delta frames applied to a primed book with
per-side-distinct prices and no zero-quantity levels whose snapshot
payloads carry distinct prices and non-zero quantities, has strictly
descending bids, strictly ascending asks (hence prices unique per
side), and no zero-quantity entry; but neither client truncates a side
to the per-venue depth limit, which a side can exceed. -/
theorem claim3_amended :
    (∀ (book : OrderBook) (updates : List BinanceDepthUpdate),
      zeroFree book.bids → zeroFree book.asks →
      ∀ b ∈ binanceEmittedBooks book updates, emittedBookOk b) ∧
    (∀ (book : OrderBook) (msgs : List BybitOrderBookMsg),
      (pricesOf book.bids).Nodup → zeroFree book.bids →
      (pricesOf book.asks).Nodup → zeroFree book.asks →
      (∀ m ∈ msgs, m.isSnapshot = true → goodPayload m.b ∧ goodPayload m.a) →
      ∀ b ∈ bybitEmittedBooks book msgs, emittedBookOk b) := by
  constructor
  · intro book updates hB hA b hb
    exact binanceEmitted_aux updates book [] hB hA (by intro x hx; cases hx) b hb
  · intro book msgs hBn hB hAn hA hsnap b hb
    exact bybitEmitted_aux msgs book [] hBn hB hAn hA hsnap
      (by intro x hx; cases hx) b hb

/-- Closed instance of both branches of `claim3_amended` at concrete
emitted books. -/
theorem claim3_witness :
    emittedBookOk smallEmittedBook ∧ emittedBookOk bybitSmallEmittedBook :=
  ⟨claim3_amended.1 smallPrimedBook [smallDepthUpdate] (by decide) (by decide)
      smallEmittedBook (by decide),
   claim3_amended.2 bybitSmallPrimedBook [bybitSmallDeltaMsg]
      (by decide) (by decide) (by decide) (by decide) (by decide)
      bybitSmallEmittedBook (by decide)⟩

/-! ### Claim C5: reconnect backoff (`BaseExchange.handleReconnect`) -/

lemma failureTrace_succ (m : ℕ) :
    failureTrace (m + 1) = ((failureTrace m).bind handleReconnect).map Prod.fst := by
  cases h : failureTrace m <;> simp [failureTrace, h]

lemma nthFailureOutcome_none : ∀ k, (failureTrace (5 + k)).bind handleReconnect = none
  | 0 => by decide
  | k + 1 => by
    have h : failureTrace (5 + (k + 1)) = none := by
      rw [show 5 + (k + 1) = (5 + k) + 1 from rfl, failureTrace_succ,
        nthFailureOutcome_none k]
      rfl
    rw [h]
    rfl

/-- C5 counterexample: the 5th consecutive failure does not transition
to `Failed`; it schedules one more retry after the 30 s cap (the
counter is incremented to 5 before the delay is computed, so
`min(2^5 s, 30 s) = 30 s`). -/
theorem claim5_counterexample :
    nthFailureOutcome 5 = some (5, 30000) ∧ nthFailureOutcome 5 ≠ none := by
  decide

/-- C5 (amended): on the `n`-th consecutive failure with `n ≤ 5` the
client schedules a reconnect after `min(2^n × 1 s, 30 s)` — delays
2, 4, 8, 16, 30 seconds — and it is the 6th consecutive failure that
produces the terminal error, after which no retry is ever scheduled
without an external restart. -/
theorem claim5_amended :
    (∀ n, 1 ≤ n → n ≤ 5 →
      nthFailureOutcome n = some (n, min (1000 * 2 ^ n) 30000)) ∧
    (∀ n, 6 ≤ n → nthFailureOutcome n = none) := by
  constructor
  · intro n h1 h5
    interval_cases n <;> decide
  · intro n h6
    obtain ⟨k, rfl⟩ := Nat.exists_eq_add_of_le h6
    show (failureTrace (6 + k - 1)).bind handleReconnect = none
    have h : 6 + k - 1 = 5 + k := by omega
    rw [h]
    exact nthFailureOutcome_none k

/-- Closed instance of `claim5_amended`: the 2nd failure waits 4 s and
the 6th is terminal. -/
theorem claim5_witness :
    nthFailureOutcome 2 = some (2, min (1000 * 2 ^ 2) 30000) ∧
    nthFailureOutcome 6 = none :=
  ⟨claim5_amended.1 2 (by decide) (by decide), claim5_amended.2 6 (by decide)⟩

/-! ### Claim C6: sink retention (`cleanupOldOpportunities`)

The relational sink is modelled as a list of rows `(id, timestampMs)`
in insertion order with an auto-incremented integer id; `orderBy
timestamp desc` is modelled as a stable sort on the stored order. -/

lemma enumFrom_append_nat (l1 l2 : List ℕ) (n : ℕ) :
    List.enumFrom n (l1 ++ l2) =
      List.enumFrom n l1 ++ List.enumFrom (n + l1.length) l2 := by
  induction l1 generalizing n with
  | nil => simp
  | cons a l1 ih =>
    simp only [List.cons_append, List.enumFrom_cons, ih (n + 1), List.length_cons]
    have h : n + 1 + l1.length = n + (l1.length + 1) := by omega
    rw [h]

lemma enumFrom_drop_nat (l : List ℕ) : ∀ (n m : ℕ),
    (List.enumFrom n l).drop m = List.enumFrom (n + m) (l.drop m) := by
  induction l with
  | nil => intro n m; simp
  | cons a l ih =>
    intro n m
    cases m with
    | zero => simp
    | succ m =>
      simp only [List.enumFrom_cons, List.drop_succ_cons, ih (n + 1) m]
      have h : n + 1 + m = n + (m + 1) := by omega
      rw [h]

lemma filter_enumFrom_ge (l : List ℕ) : ∀ (n c : ℕ), c ≤ n →
    (List.enumFrom n l).filter (fun r => !decide (r.1 < c)) = List.enumFrom n l := by
  induction l with
  | nil => intro n c _; rfl
  | cons a l ih =>
    intro n c h
    have hc : ¬ (n < c) := by omega
    simp only [List.enumFrom_cons, List.filter_cons]
    simp [hc, ih (n + 1) c (by omega : c ≤ n + 1)]

lemma filter_enumFrom_lt (l : List ℕ) : ∀ (n c : ℕ), n ≤ c →
    (List.enumFrom n l).filter (fun r => !decide (r.1 < c)) =
      List.enumFrom c (l.drop (c - n)) := by
  induction l with
  | nil => intro n c _; simp
  | cons a l ih =>
    intro n c h
    by_cases hnc : n = c
    · subst hnc
      rw [Nat.sub_self, List.drop_zero]
      exact filter_enumFrom_ge (a :: l) n n le_rfl
    · have hlt : n < c := lt_of_le_of_ne h hnc
      have hk : c - n = (c - (n + 1)) + 1 := by omega
      simp only [List.enumFrom_cons, List.filter_cons]
      simp [hlt, ih (n + 1) c hlt, hk, List.drop_succ_cons]

lemma orderedInsert_append_of_forall (x : ℕ × ℕ) : ∀ (l : List (ℕ × ℕ)),
    (∀ b ∈ l, ¬ newerFirst x b) →
    l.orderedInsert newerFirst x = l ++ [x]
  | [], _ => rfl
  | b :: bs, h => by
    simp only [List.orderedInsert, if_neg (h b (by simp))]
    rw [orderedInsert_append_of_forall x bs (fun c hc => h c (by simp [hc]))]
    rfl

lemma insertionSort_reverse_of_ascending : ∀ (l : List (ℕ × ℕ)),
    l.Pairwise (fun a b => a.2 < b.2) →
    l.insertionSort newerFirst = l.reverse
  | [], _ => rfl
  | x :: xs, h => by
    simp only [List.insertionSort]
    rw [insertionSort_reverse_of_ascending xs (List.Pairwise.of_cons h)]
    rw [orderedInsert_append_of_forall x xs.reverse ?hall, List.reverse_cons]
    case hall =>
      intro b hb
      rw [List.mem_reverse] at hb
      have hx := (List.pairwise_cons.mp h).1 b hb
      exact fun hc => absurd hx (not_lt.mpr hc)

lemma pairwise_snd_enumFrom {R : ℕ → ℕ → Prop} (l : List ℕ) (n : ℕ)
    (h : l.Pairwise R) :
    (List.enumFrom n l).Pairwise (fun a b => R a.2 b.2) := by
  have h2 : List.Pairwise R ((List.enumFrom n l).map Prod.snd) := by
    rw [List.enumFrom_map_snd]
    exact h
  exact (List.pairwise_map).mp h2

lemma appendAndClean_char (ts : List ℕ) (t : ℕ) (sink : SinkState)
    (hrows : sink.rows = (List.enumFrom 0 ts).drop (ts.length - 1000))
    (hnext : sink.nextId = ts.length)
    (hmono : (ts ++ [t]).Pairwise (· < ·)) :
    (appendAndClean sink t).rows =
      (List.enumFrom 0 (ts ++ [t])).drop ((ts ++ [t]).length - 1000) ∧
    (appendAndClean sink t).nextId = (ts ++ [t]).length := by
  have hR : (List.enumFrom 0 (ts ++ [t])).drop (ts.length - 1000)
      = (List.enumFrom 0 ts).drop (ts.length - 1000) ++ [(ts.length, t)] := by
    rw [enumFrom_append_nat ts [t] 0,
      List.drop_append_of_le_length (by simp)]
    simp
  have hrows1 : (insertRow sink t).rows =
      (List.enumFrom 0 (ts ++ [t])).drop (ts.length - 1000) := by
    simp only [insertRow, hrows, hnext]
    rw [hR]
  have hnext1 : (insertRow sink t).nextId = ts.length + 1 := by
    simp [insertRow, hnext]
  have hlen1 : (insertRow sink t).rows.length
      = (ts.length + 1) - (ts.length - 1000) := by
    rw [hrows1]
    simp
  unfold appendAndClean
  by_cases hcase : ts.length < 1000
  · unfold cleanupOldOpportunities
    rw [if_neg (by rw [hlen1]; omega)]
    refine ⟨?_, by simp [hnext1]⟩
    rw [hrows1]
    have h1 : (ts ++ [t]).length - 1000 = 0 := by simp; omega
    have h2 : ts.length - 1000 = 0 := by omega
    rw [h1, h2]
  · push_neg at hcase
    have hlen1001 : (insertRow sink t).rows.length = 1001 := by
      rw [hlen1]; omega
    have hascRows : ((insertRow sink t).rows).Pairwise (fun a b => a.2 < b.2) := by
      rw [hrows1]
      exact (pairwise_snd_enumFrom (ts ++ [t]) 0 hmono).sublist
        (List.drop_sublist _ _)
    have hlenM : ((ts ++ [t]).drop (ts.length - 1000)).length = 1001 := by
      simp
      omega
    obtain ⟨m0, M0, hM0⟩ : ∃ m0 M0,
        (ts ++ [t]).drop (ts.length - 1000) = m0 :: M0 := by
      cases hM : (ts ++ [t]).drop (ts.length - 1000) with
      | nil => rw [hM] at hlenM; simp at hlenM
      | cons a l => exact ⟨a, l, rfl⟩
    obtain ⟨m1, M1, hM1⟩ : ∃ m1 M1, M0 = m1 :: M1 := by
      cases hM : M0 with
      | nil => rw [hM0, hM] at hlenM; simp at hlenM
      | cons a l => exact ⟨a, l, rfl⟩
    have hlenM1 : M1.length = 999 := by
      rw [hM0, hM1] at hlenM
      simpa using hlenM
    have hrows1a : (insertRow sink t).rows =
        (ts.length - 1000, m0) :: ((ts.length - 1000) + 1, m1)
          :: List.enumFrom ((ts.length - 1000) + 2) M1 := by
      rw [hrows1, enumFrom_drop_nat, Nat.zero_add, hM0, hM1]
      simp only [List.enumFrom_cons]
    unfold cleanupOldOpportunities
    rw [if_pos (by rw [hlen1001]; omega)]
    rw [show sortByTimestampDesc (insertRow sink t).rows
        = ((insertRow sink t).rows).reverse from
      insertionSort_reverse_of_ascending _ hascRows]
    have hrev : ((insertRow sink t).rows).reverse
        = (List.enumFrom ((ts.length - 1000) + 2) M1).reverse
            ++ [((ts.length - 1000) + 1, m1), (ts.length - 1000, m0)] := by
      rw [hrows1a]
      simp
    have hdrop : (((insertRow sink t).rows).reverse).drop 999
        = [((ts.length - 1000) + 1, m1), (ts.length - 1000, m0)] := by
      rw [hrev]
      have h999len :
          (List.enumFrom ((ts.length - 1000) + 2) M1).reverse.length = 999 := by
        simp [hlenM1]
      rw [← h999len, List.drop_left]
    rw [hdrop]
    simp only [List.head?_cons, Option.elim]
    have hfilter : ((insertRow sink t).rows).filter
        (fun r => !decide (r.1 < ((ts.length - 1000) + 1, m1).1))
        = (List.enumFrom 0 (ts ++ [t])).drop ((ts.length - 1000) + 1) := by
      rw [hrows1, enumFrom_drop_nat, Nat.zero_add]
      rw [filter_enumFrom_lt ((ts ++ [t]).drop (ts.length - 1000))
        (ts.length - 1000) ((ts.length - 1000) + 1) (by omega)]
      have h1 : (ts.length - 1000) + 1 - (ts.length - 1000) = 1 := by omega
      rw [h1, List.drop_drop]
      rw [enumFrom_drop_nat, Nat.zero_add]
    constructor
    · simp only [hfilter]
      have h2 : (ts ++ [t]).length - 1000 = (ts.length - 1000) + 1 := by
        simp; omega
      rw [h2]
    · simp [hnext1]

lemma appendAndClean_small (sink : SinkState) (t : ℕ)
    (h : sink.rows.length + 1 ≤ 1000) :
    appendAndClean sink t = insertRow sink t := by
  unfold appendAndClean cleanupOldOpportunities
  rw [if_neg (by simp [insertRow]; omega)]

lemma foldl_insert_plain : ∀ (timestamps : List ℕ) (sink : SinkState),
    sink.rows.length + timestamps.length ≤ 1000 →
    timestamps.foldl appendAndClean sink =
      ⟨sink.rows ++ List.enumFrom sink.nextId timestamps,
        sink.nextId + timestamps.length⟩
  | [], sink, _ => by simp
  | t :: rest, sink, h => by
    simp only [List.foldl_cons]
    rw [appendAndClean_small sink t (by simp at h; omega)]
    rw [foldl_insert_plain rest (insertRow sink t)
      (by simp only [insertRow, List.length_append, List.length_cons,
        List.length_nil] at h ⊢; omega)]
    simp only [insertRow, List.enumFrom_cons, SinkState.mk.injEq]
    constructor
    · rw [List.append_assoc]
      rfl
    · simp
      omega

lemma runAppends_char : ∀ (timestamps : List ℕ),
    timestamps.Pairwise (· < ·) →
    (runAppends timestamps).rows =
      (List.enumFrom 0 timestamps).drop (timestamps.length - 1000) ∧
    (runAppends timestamps).nextId = timestamps.length := by
  intro timestamps
  induction timestamps using List.reverseRecOn with
  | nil => intro _; exact ⟨rfl, rfl⟩
  | append_singleton ts t ih =>
    intro hmono
    have hm : ts.Pairwise (· < ·) :=
      hmono.sublist (List.sublist_append_left ts [t])
    obtain ⟨h1, h2⟩ := ih hm
    have hfold : runAppends (ts ++ [t]) = appendAndClean (runAppends ts) t := by
      simp [runAppends, List.foldl_append]
    rw [hfold]
    exact appendAndClean_char ts t (runAppends ts) h1 h2 hmono

lemma range_1001_drop_999 : (List.range 1001).drop 999 = [999, 1000] := by
  rw [List.range_succ, List.range_succ, List.append_assoc]
  rw [List.drop_left' (List.length_range 999)]
  rfl

set_option maxRecDepth 100000 in
/-- C6 counterexample: appending 1001 rows whose timestamps decrease
leaves only two rows in the sink — the id-based delete removes 999 of
the 1000 newest rows, including the globally newest one `(0, 3000)` —
so the retained rows are not the 1000 newest by timestamp. -/
theorem claim6_counterexample :
    (runAppends outOfOrderTimestamps).rows = [(999, 2001), (1000, 2000)] ∧
    outOfOrderTimestamps.length = 1001 := by
  have hlen : outOfOrderTimestamps.length = 1001 := by
    simp [outOfOrderTimestamps]
  refine ⟨?_, hlen⟩
  have hsplit : outOfOrderTimestamps
      = ((List.range 1000).map (fun i => 3000 - i)) ++ [2000] := by
    unfold outOfOrderTimestamps
    rw [List.range_succ, List.map_append]
    rfl
  have hdropT : outOfOrderTimestamps.drop 999 = [2001, 2000] := by
    unfold outOfOrderTimestamps
    rw [← List.map_drop, range_1001_drop_999]
    rfl
  rw [runAppends, hsplit, List.foldl_append]
  rw [foldl_insert_plain ((List.range 1000).map (fun i => 3000 - i)) ⟨[], 0⟩
    (by simp)]
  simp only [List.foldl_cons, List.foldl_nil, List.nil_append, Nat.zero_add]
  rw [show ((List.range 1000).map (fun i => 3000 - i)).length = 1000 from by
    rw [List.length_map, List.length_range]]
  unfold appendAndClean insertRow cleanupOldOpportunities
  have hrows1 : List.enumFrom 0 ((List.range 1000).map (fun i => 3000 - i))
      ++ [((1000 : ℕ), (2000 : ℕ))] = List.enumFrom 0 outOfOrderTimestamps := by
    have hsingle : List.enumFrom
        (0 + ((List.range 1000).map (fun i => 3000 - i)).length) [2000]
        = [((1000 : ℕ), (2000 : ℕ))] := by
      rw [List.length_map, List.length_range]
      rfl
    rw [hsplit, enumFrom_append_nat, hsingle]
  simp only [hrows1]
  rw [if_pos (by simp [hlen])]
  have hpair : (List.enumFrom 0 outOfOrderTimestamps).Pairwise newerFirst := by
    have h1 : outOfOrderTimestamps.Pairwise (fun x y => y ≤ x) := by
      unfold outOfOrderTimestamps
      rw [List.pairwise_map]
      exact (List.pairwise_lt_range 1001).imp
        (fun hij => Nat.sub_le_sub_left (le_of_lt hij) 3000)
    exact pairwise_snd_enumFrom outOfOrderTimestamps 0 h1
  rw [show sortByTimestampDesc (List.enumFrom 0 outOfOrderTimestamps)
      = List.enumFrom 0 outOfOrderTimestamps from
    List.Sorted.insertionSort_eq hpair]
  rw [enumFrom_drop_nat, Nat.zero_add, hdropT]
  simp only [List.enumFrom_cons, List.head?_cons, Option.elim]
  rw [filter_enumFrom_lt outOfOrderTimestamps 0 999 (by omega)]
  rw [Nat.sub_zero, hdropT]
  rfl

/-- C6 (amended): after each append, if the row count exceeds 1000 the
sink deletes every row whose id precedes the id of the 1000th most
recent row by timestamp.  When detection timestamps are strictly
increasing in append order — so that row ids and timestamps agree —
the sink retains at most 1000 rows, and those rows are exactly the
1000 newest by timestamp (the most recent appends).  With out-of-order
timestamps the id-based delete can discard newer rows. -/
theorem claim6_amended (timestamps : List ℕ)
    (hmono : timestamps.Pairwise (· < ·)) :
    (runAppends timestamps).rows =
      (List.enumFrom 0 timestamps).drop (timestamps.length - 1000) ∧
    (runAppends timestamps).rows.length ≤ 1000 := by
  obtain ⟨h1, _⟩ := runAppends_char timestamps hmono
  refine ⟨h1, ?_⟩
  rw [h1]
  simp
  omega

/-- Closed instance of `claim6_amended` at a three-append history. -/
theorem claim6_witness :
    (runAppends [10, 20, 30]).rows =
      (List.enumFrom 0 [10, 20, 30]).drop ([10, 20, 30].length - 1000) ∧
    (runAppends [10, 20, 30]).rows.length ≤ 1000 :=
  claim6_amended [10, 20, 30] (by decide)

/-! ### Claim C10: the book map only grows -/

/-- C10: `updateOrderBook` writes only its own key (other entries
survive untouched and the new book is present under its key); neither
`updateConfig` nor `updateTradeAmount` touches the map; and the scan's
candidate set for a symbol is exactly the stored books filtered by
normalized-symbol match and the freshness window — no configuration
change ever removes a book from the map. -/
theorem claim10_map_monotone :
    (∀ (books : List (String × OrderBook)) (ob : OrderBook)
        (kv : String × OrderBook), kv ∈ books → kv.1 ≠ bookKey ob →
        kv ∈ setBook books (bookKey ob) ob) ∧
    (∀ (books : List (String × OrderBook)) (ob : OrderBook),
        (bookKey ob, ob) ∈ setBook books (bookKey ob) ob) ∧
    (∀ (st : DetectorState) (patch : OpportunityConfigPatch),
        (updateConfig st patch).orderBooks = st.orderBooks) ∧
    (∀ (st : DetectorState) (amount : ℚ),
        (updateTradeAmount st amount).orderBooks = st.orderBooks) ∧
    (∀ (st : DetectorState) (now : ℤ) (ob : OrderBook),
        ((updateOrderBook st now ob).1).orderBooks
          = setBook st.orderBooks (bookKey ob) ob) ∧
    (∀ (st : DetectorState) (now : ℤ) (symbol : String) (ob : OrderBook),
        ob ∈ freshBooksForSymbol st now symbol ↔
          (∃ k, (k, ob) ∈ st.orderBooks) ∧
          normalizeSymbol ob.symbol = symbol ∧
          now - ob.timestamp ≤ st.config.maxSpreadAge) := by
  refine ⟨?_, ?_, fun _ _ => rfl, fun _ _ => rfl, ?_, ?_⟩
  · intro books ob kv hkv hne
    unfold setBook
    split
    · exact List.mem_map.mpr ⟨kv, hkv, by rw [if_neg hne]⟩
    · exact List.mem_append.mpr (Or.inl hkv)
  · intro books ob
    unfold setBook
    split
    case isTrue hAny =>
      obtain ⟨kv0, hkv0, h0⟩ := List.any_eq_true.mp hAny
      refine List.mem_map.mpr ⟨kv0, hkv0, ?_⟩
      rw [if_pos (by simpa using h0)]
    case isFalse hAny =>
      exact List.mem_append.mpr (Or.inr (by simp))
  · intro st now ob
    unfold updateOrderBook
    by_cases h : now - st.lastOpportunityCheck > 1000
    · simp [h]
    · simp [h]
  · intro st now symbol ob
    unfold freshBooksForSymbol
    rw [List.mem_filter]
    constructor
    · rintro ⟨hmem, hcond⟩
      obtain ⟨kv, hkv, rfl⟩ := List.mem_map.mp hmem
      simp only [Bool.and_eq_true, beq_iff_eq, isOrderBookFresh,
        decide_eq_true_eq] at hcond
      exact ⟨⟨kv.1, by simpa using hkv⟩, hcond.1, hcond.2⟩
    · rintro ⟨⟨k, hk⟩, hsym, hfresh⟩
      refine ⟨List.mem_map.mpr ⟨(k, ob), hk, rfl⟩, ?_⟩
      simp only [Bool.and_eq_true, beq_iff_eq, isOrderBookFresh,
        decide_eq_true_eq]
      exact ⟨hsym, hfresh⟩

/-- Closed instance of `claim10_map_monotone`: writing the Coinbase
book keeps the Binance entry. -/
theorem claim10_witness :
    ("binance:BTCUSDT", storedBinanceBook) ∈
      setBook [("binance:BTCUSDT", storedBinanceBook)]
        (bookKey incomingCoinbaseBook) incomingCoinbaseBook :=
  claim10_map_monotone.1 [("binance:BTCUSDT", storedBinanceBook)]
    incomingCoinbaseBook ("binance:BTCUSDT", storedBinanceBook)
    (by decide) (by decide)

/-! ### Claim C9: manager order-book intake
(`DynamicMarketDataManager.handleOrderBookUpdate`) -/

/-- C9: the intake steps run in order and stop at the first failure —
when the cache write throws, the book reaches neither the detector nor
the `orderbook_update` re-emission, and the error is only logged;
when it succeeds, all three effects happen.  Intake is not atomic
across the steps (the error path leaves the world unchanged apart
from the log, the success path applies all three effects). -/
theorem claim9_intake_abort (w : ManagerWorld) (now : ℤ)
    (orderBook : OrderBook) :
    ((handleOrderBookUpdateM w now orderBook true).cache = w.cache ∧
     (handleOrderBookUpdateM w now orderBook true).detector = w.detector ∧
     (handleOrderBookUpdateM w now orderBook true).emittedEvents
       = w.emittedEvents ∧
     (handleOrderBookUpdateM w now orderBook true).errorLogCount
       = w.errorLogCount + 1) ∧
    ((handleOrderBookUpdateM w now orderBook false).cache
       = setCacheEntry w.cache (cacheKey orderBook) orderBook ∧
     (handleOrderBookUpdateM w now orderBook false).detector
       = (updateOrderBook w.detector now orderBook).1 ∧
     (handleOrderBookUpdateM w now orderBook false).emittedEvents
       = w.emittedEvents ++ [orderBook] ∧
     (handleOrderBookUpdateM w now orderBook false).errorLogCount
       = w.errorLogCount) :=
  ⟨⟨rfl, rfl, rfl, rfl⟩, ⟨rfl, rfl, rfl, rfl⟩⟩

/-! ### Claim C8: sink append failure handling
(`saveOpportunityToDatabase` / `ensureExchangesExist`) -/

lemma exchangeNames_upsert_mono (rows : List (String × String × String))
    (name x : String) (h : x ∈ exchangeNames rows) :
    x ∈ exchangeNames (upsertExchange rows name) := by
  unfold upsertExchange
  split
  · exact h
  · unfold exchangeNames at *
    rw [List.map_append]
    exact List.mem_append.mpr (Or.inl h)

lemma mem_exchangeNames_upsert (rows : List (String × String × String))
    (name : String) : name ∈ exchangeNames (upsertExchange rows name) := by
  unfold upsertExchange
  split
  case isTrue hAny =>
    obtain ⟨r, hr, h0⟩ := List.any_eq_true.mp hAny
    unfold exchangeNames
    simp only [beq_iff_eq] at h0
    exact List.mem_map.mpr ⟨r, hr, h0⟩
  case isFalse hAny =>
    unfold exchangeNames
    rw [List.map_append]
    exact List.mem_append.mpr (Or.inr (by simp))

lemma upsertExchange_of_mem (rows : List (String × String × String))
    (name : String) (h : name ∈ exchangeNames rows) :
    upsertExchange rows name = rows := by
  unfold upsertExchange
  rw [if_pos]
  obtain ⟨r, hr, hr1⟩ := List.mem_map.mp h
  exact List.any_eq_true.mpr ⟨r, hr, by simp [hr1]⟩

lemma ensureExchangesExist_idem (rows : List (String × String × String)) :
    ensureExchangesExist (ensureExchangesExist rows) = ensureExchangesExist rows := by
  unfold ensureExchangesExist
  rw [upsertExchange_of_mem _ "binance"
    (exchangeNames_upsert_mono _ "coinbase" "binance"
      (mem_exchangeNames_upsert rows "binance"))]
  rw [upsertExchange_of_mem _ "coinbase"
    (mem_exchangeNames_upsert (upsertExchange rows "binance") "coinbase")]

lemma mem_names_ensure (rows : List (String × String × String)) (x : String)
    (h : x ∈ exchangeNames rows) :
    x ∈ exchangeNames (ensureExchangesExist rows) := by
  unfold ensureExchangesExist
  exact exchangeNames_upsert_mono _ "coinbase" x
    (exchangeNames_upsert_mono _ "binance" x h)

lemma save_succ (fuel : ℕ) (db : OpportunitySinkDb)
    (opportunity : ArbitrageOpportunity) :
    saveOpportunityToDatabase (fuel + 1) db opportunity =
      match createOpportunityRow db opportunity with
      | .ok => ({ db with saved := db.saved + 1 }, .saved)
      | .fkViolation =>
        saveOpportunityToDatabase fuel
          { db with exchanges := ensureExchangesExist db.exchanges } opportunity
      | .otherError => (db, .errorLogged) := rfl

lemma save_uncovered : ∀ (fuel : ℕ) (db : OpportunitySinkDb)
    (opportunity : ArbitrageOpportunity),
    db.healthy = true → ¬ referencedCovered db opportunity →
    (saveOpportunityToDatabase fuel db opportunity).2 = .outOfFuel
  | 0, _, _, _, _ => rfl
  | fuel + 1, db, opportunity, hh, hnc => by
    have hnotok : ¬ (opportunity.buyExchange ∈ exchangeNames db.exchanges ∧
        opportunity.sellExchange ∈ exchangeNames db.exchanges) := by
      rintro ⟨h1, h2⟩
      exact hnc ⟨mem_names_ensure _ _ h1, mem_names_ensure _ _ h2⟩
    have hfk : createOpportunityRow db opportunity = .fkViolation := by
      unfold createOpportunityRow
      rw [if_neg (by simp [hh]), if_neg hnotok]
    rw [save_succ, hfk]
    refine save_uncovered fuel _ opportunity (by simp [hh]) ?_
    intro hc
    apply hnc
    unfold referencedCovered at hc ⊢
    rw [show ({ db with exchanges := ensureExchangesExist db.exchanges }
        : OpportunitySinkDb).exchanges = ensureExchangesExist db.exchanges
      from rfl, ensureExchangesExist_idem] at hc
    exact hc

/-- C8 counterexample: when the missing venue row is `kraken`, the
recovery path upserts the fixed pair binance/coinbase — not the venues
the opportunity references — so the retried insert fails with the same
foreign-key violation and the code retries forever (never exactly
once, never reaching the log-and-continue path), and the in-process
event is not emitted. -/
theorem claim8_counterexample :
    (saveOpportunityToDatabase 2 ⟨[], 0, true⟩ krakenOpportunity).2
      = SaveResult.outOfFuel ∧
    (saveOpportunityToDatabase 5 ⟨[], 0, true⟩ krakenOpportunity).2
      = SaveResult.outOfFuel ∧
    (handleOpportunity 5 ⟨[], 0, true⟩ krakenOpportunity).2.2 = false ∧
    exchangeNames (ensureExchangesExist []) = ["binance", "coinbase"] := by
  decide

/-- C8 (amended): on a foreign-key failure the sink upserts the fixed
pair binance and coinbase with their default `(ws_url, rest_url)` and
retries recursively; the retry succeeds after one round exactly when
the opportunity's venues are covered by the table after that upsert,
and otherwise the save loops forever (never reaching a logged error,
never emitting the event); any non-foreign-key failure is logged once,
the state is unchanged, and the in-process event is still emitted. -/
theorem claim8_amended :
    (∀ (db : OpportunitySinkDb) (opportunity : ArbitrageOpportunity)
        (fuel : ℕ), db.healthy = true →
        createOpportunityRow db opportunity = .fkViolation →
        referencedCovered db opportunity →
        saveOpportunityToDatabase (fuel + 2) db opportunity =
          ({ exchanges := ensureExchangesExist db.exchanges,
             saved := db.saved + 1, healthy := db.healthy }, .saved)) ∧
    (∀ (db : OpportunitySinkDb) (opportunity : ArbitrageOpportunity)
        (fuel : ℕ), db.healthy = true →
        ¬ referencedCovered db opportunity →
        (saveOpportunityToDatabase fuel db opportunity).2 = .outOfFuel) ∧
    (∀ (db : OpportunitySinkDb) (opportunity : ArbitrageOpportunity)
        (fuel : ℕ), db.healthy = false →
        saveOpportunityToDatabase (fuel + 1) db opportunity
          = (db, .errorLogged) ∧
        (handleOpportunity (fuel + 1) db opportunity).2.2 = true) := by
  refine ⟨?_, ?_, ?_⟩
  · intro db opportunity fuel hh hfk hcov
    have hok : createOpportunityRow
        { db with exchanges := ensureExchangesExist db.exchanges }
        opportunity = .ok := by
      have hcov2 : opportunity.buyExchange ∈
            exchangeNames (ensureExchangesExist db.exchanges) ∧
          opportunity.sellExchange ∈
            exchangeNames (ensureExchangesExist db.exchanges) := hcov
      unfold createOpportunityRow
      rw [if_neg (by simp [hh])]
      dsimp only
      rw [if_pos hcov2]
    rw [show fuel + 2 = fuel + 1 + 1 from rfl, save_succ, hfk]
    rw [save_succ, hok]
  · exact fun db opportunity fuel hh hnc =>
      save_uncovered fuel db opportunity hh hnc
  · intro db opportunity fuel hh
    have hother : createOpportunityRow db opportunity = .otherError := by
      unfold createOpportunityRow
      rw [if_pos hh]
    constructor
    · rw [save_succ, hother]
    · unfold handleOpportunity
      rw [save_succ, hother]
      rfl

/-- Closed instance of `claim8_amended`: against an empty venue table,
the binance/coinbase opportunity is saved on the single retry after
the upsert. -/
theorem claim8_witness :
    saveOpportunityToDatabase (0 + 2) ⟨[], 0, true⟩ coveredOpportunity =
      ({ exchanges := ensureExchangesExist ([] : List (String × String × String)),
         saved := 0 + 1, healthy := true }, .saved) :=
  claim8_amended.1 ⟨[], 0, true⟩ coveredOpportunity 0 rfl (by decide) (by decide)

end Arbot
